import Mathlib

/-
Verification development for the Blokus MCTS playout engine
(libpentobi_mcts). The definitions below are a shallow embedding of
src/src/libpentobi_mcts/State.cpp and src/src/libpentobi_mcts/Player.h.
Floating-point quantities of the C++ code (Float, double) are modelled by
real numbers; machine integers by Nat/Int. External capabilities that the
engine consumes (the Board, the move tables, the LocalValue bias and the
running Statistics) are modelled from the specification, as noted on each
such definition.
-/

open scoped Classical

namespace PentobiMcts

/-- Colors are integers in [0, nu_colors) with nu_colors at most 4
    (libpentobi_base::Color). -/
abbrev Color := Fin 4

/-- Board points, identified by their integer index
    (libpentobi_base::Point). -/
abbrev Point := ℕ

/-- Piece identifiers (libpentobi_base::Piece). -/
abbrev Piece := ℕ

/-- Moves: the special sentinels null and pass, or a regular move
    identifier (libpentobi_base::Move). -/
inductive MoveV where
  | null : MoveV
  | pass : MoveV
  | reg : ℕ → MoveV
deriving DecidableEq, Repr

/-- Move.is_regular(): neither null nor pass. -/
def MoveV.is_regular : MoveV → Bool
  | .reg _ => true
  | _ => false

/-- Move.is_pass(). -/
def MoveV.is_pass : MoveV → Bool
  | .pass => true
  | _ => false

/-- MoveInfo: the ordered placement points of a move together with its
    piece identity (libpentobi_base::MoveInfo). -/
structure MoveInfo where
  piece : Piece
  points : List Point
deriving DecidableEq, Repr

/-- Board types, as in libpentobi_base::BoardType; the game variants
    classic/classic_2 map to classic, duo/junior to duo, trigon/trigon_2
    to trigon and trigon_3 to trigon_3. -/
inductive BoardType where
  | classic : BoardType
  | duo : BoardType
  | trigon : BoardType
  | trigon_3 : BoardType
deriving DecidableEq, Repr

/-- Modelled from the spec: the Board capability of section 6 (the board
    implementation lives in libpentobi_base, outside src/). A point is
    empty (none) or occupied by a color; per color the board reports the
    pieces left, the attach and starting points, the forbidden mask and
    the scores. The move history records, per move played, whether it was
    a pass (used by start_simulation to count trailing passes). -/
structure Board where
  nu_colors : ℕ
  nu_players : ℕ
  to_play : Color
  point_state : Point → Option Color
  pieces_left : Color → List Piece
  attach_points : Color → List Point
  starting_points : Color → List Point
  is_forbidden : Color → Point → Bool
  is_first_piece : Color → Bool
  nu_onboard_pieces : ℕ
  history : List Bool
  score : Color → ℤ
  points_with_bonus : Color → ℕ
  second_color : Color → Color
  adj_status : Point → Color → ℕ
  is_legal_nonpass : MoveV → Bool
  get_x : Point → ℤ
  get_y : Point → ℤ
  board_type : BoardType

/-- Board::get_nu_moves(): length of the move history. -/
def Board.nu_moves (bd : Board) : ℕ := bd.history.length

/-- Modelled from the spec: Board::get_next, the cyclic successor of a
    color among the nu_colors on-board colors. -/
def Board.get_next (bd : Board) (c : Color) : Color :=
  if c.val + 1 < min bd.nu_colors 4 then ⟨(c.val + 1) % 4, by omega⟩ else 0

/-- Board::set_to_play(c). -/
def Board.set_to_play (bd : Board) (c : Color) : Board := { bd with to_play := c }

/-- Modelled from the spec: Board::play_pass() appends a pass to the
    history and advances the color to play. -/
def Board.play_pass (bd : Board) : Board :=
  { bd with history := bd.history ++ [true], to_play := bd.get_next bd.to_play }

/-- Modelled from the spec: Board::play(mv) for a non-pass move places
    the moving color on the placement points of the move, removes the
    piece from its pieces left, counts the piece as on board, appends to
    the history and advances the color to play. Fields whose evolution
    the spec leaves to the board geometry (is_forbidden, attach_points,
    score, points_with_bonus, adj_status, is_legal_nonpass) are not
    recomputed here; no claim below depends on their value after a play. -/
def Board.play_nonpass (bd : Board) (info : MoveInfo) : Board :=
  { bd with
    point_state := fun p => if p ∈ info.points then some bd.to_play else bd.point_state p,
    pieces_left :=
      Function.update bd.pieces_left bd.to_play ((bd.pieces_left bd.to_play).erase info.piece),
    nu_onboard_pieces := bd.nu_onboard_pieces + 1,
    history := bd.history ++ [false],
    to_play := bd.get_next bd.to_play }

/-- Modelled from the spec: libboardgame_util::StatisticsBase (outside
    src/), a Welford-style running mean/deviation statistic as described
    in section 4.1 of the spec. -/
structure Stat where
  count : ℕ
  mean : ℝ
  m2 : ℝ

/-- Modelled from the spec: Statistics::add, the Welford update. -/
noncomputable def Stat.add (st : Stat) (x : ℝ) : Stat :=
  let count' := st.count + 1
  let d := x - st.mean
  let mean' := st.mean + d / (count' : ℝ)
  { count := count', mean := mean', m2 := st.m2 + d * (x - mean') }

/-- Modelled from the spec: Statistics::get_deviation, the square root
    of the running variance. -/
noncomputable def Stat.deviation (st : Stat) : ℝ :=
  Real.sqrt (st.m2 / (st.count : ℝ))

/-- The empty statistic (Statistics::clear). -/
def Stat.cleared : Stat := { count := 0, mean := 0, m2 := 0 }

/-- Identity of the piece-consideration table a color's
    m_is_piece_considered pointer refers to: either the all-pieces table
    is_piece_considered_all or the table keyed by a move number. The C++
    code compares these by pointer; distinct constructors model distinct
    tables. -/
inductive ConsideredPtr where
  | all : ConsideredPtr
  | atMove : ℕ → ConsideredPtr
deriving DecidableEq, Repr

/-- The immutable context of a search: the externally supplied move
    tables and move info (libpentobi_base::BoardConst, outside src/), the
    SharedConst consideration tables and symmetry permutation, the gamma
    tables precomputed by State::start_search, and the LocalValue bias.
    lv_local, lv_attach and lv_adj_attach are modelled from the spec:
    LocalValue (outside src/) marks, relative to the current board, the
    points adjacent to the most recent opponent moves, the local attach
    points a move may contribute, and the points adjacent to a recent
    opponent attach point. The two Prop fields state the contract of the
    external move table: each listed move belongs to the queried piece
    and the table lists no move twice. -/
structure Env where
  get_moves : Color → Piece → Point → ℕ → List MoveV
  move_info : MoveV → MoveInfo
  move_info_ext : MoveV → List Point
  lv_local : Board → Point → Bool
  lv_attach : Board → Point → Bool
  lv_adj_attach : Board → Point → Bool
  is_piece_considered_all : Piece → Bool
  is_piece_considered_at : ℕ → Piece → Bool
  min_move_all_considered : ℕ
  symmetric_points : Point → Point
  gamma_piece : Piece → ℝ
  gamma_nu_attach : ℕ → ℝ
  get_moves_piece : ∀ c piece p adj mv,
    mv ∈ get_moves c piece p adj → (move_info mv).piece = piece
  get_moves_nodup : ∀ c piece p adj, (get_moves c piece p adj).Nodup

/-- Look a piece up in the table a ConsideredPtr designates. -/
def Env.considered (env : Env) : ConsideredPtr → Piece → Bool
  | .all => env.is_piece_considered_all
  | .atMove n => env.is_piece_considered_at n

/-- The per-worker simulation state (libpentobi_mcts::State). cumulative
    models the valid prefix m_cumulative_gamma[0 .. moves.size()) of the
    shared cumulative-gamma array; rng models the stream of doubles the
    worker's random generator will produce; snapshot is the board
    snapshot taken by start_search. -/
structure SimState where
  bd : Board
  snapshot : Board
  moves : Color → List MoveV
  marker : Color → Finset MoveV
  cumulative : List ℝ
  total_gamma : ℝ
  new_moves : Color → List MoveV
  moves_added_at : Color → Finset Point
  is_move_list_initialized : Color → Bool
  has_moves : Color → Bool
  is_piece_considered : Color → ConsideredPtr
  force_consider_all_pieces : Bool
  nu_passes : ℕ
  nu_colors : ℕ
  symmetry_min_nu_pieces : ℕ
  is_symmetry_broken : Bool
  check_terminate_early : Bool
  nu_playout_moves : ℕ
  nu_last_good_reply_moves : ℕ
  nu_simulations : ℕ
  stat_score : Color → Stat
  stat_len : Stat
  rng : List ℝ

/-- sigmoid(steepness, x) from State.cpp. -/
noncomputable def sigmoid (steepness x : ℝ) : ℝ :=
  -1 + 2 / (1 + Real.exp (-steepness * x))

/-- The gamma size factor chosen by the switch in State::start_search. -/
def gamma_size_factor : BoardType → ℝ
  | .classic => 5
  | .duo => 3
  | .trigon => 5
  | .trigon_3 => 5

/-- The gamma attach factor chosen by the switch in State::start_search. -/
def gamma_nu_attach_factor : BoardType → ℝ
  | .classic => 1
  | .duo => 1.8
  | .trigon => 1
  | .trigon_3 => 1

/-- The precomputed per-piece gamma of State::start_search:
    size_factor ^ (piece_size - 1) * attach_factor ^ (piece_nu_attach - 1). -/
noncomputable def init_gamma_piece (bt : BoardType) (piece_size piece_nu_attach : Piece → ℕ)
    (piece : Piece) : ℝ :=
  gamma_size_factor bt ^ (piece_size piece - 1)
    * gamma_nu_attach_factor bt ^ (piece_nu_attach piece - 1)

/-- The precomputed local-attach gamma of State::start_search:
    m_gamma_nu_attach[i] = (1e10) ^ i. -/
noncomputable def init_gamma_nu_attach (i : ℕ) : ℝ := (1e10 : ℝ) ^ i

/-- State::check_move: reject the move if any of its placement points is
    forbidden; otherwise return its gamma, the piece gamma multiplied,
    when the move touches a local point, by the local-attach gamma for
    the number of local attach points among its placement points, and by
    1e5 when it additionally touches a point adjacent to a recent
    opponent attach point. -/
noncomputable def check_move (env : Env) (bd : Board) (is_forbidden : Point → Bool)
    (info : MoveInfo) : Option ℝ :=
  if info.points.any (fun p => is_forbidden p) then none
  else
    let has_local := info.points.any (env.lv_local bd)
    let nu_attach := (info.points.filter (env.lv_attach bd)).length
    let has_adj_attach := info.points.any (env.lv_adj_attach bd)
    let gamma := env.gamma_piece info.piece
    some (if has_local then
            gamma * env.gamma_nu_attach nu_attach * (if has_adj_attach then 1e5 else 1)
          else gamma)

/-- State::check_move_without_gamma: the move is acceptable when none of
    its placement points is forbidden. -/
def check_move_without_gamma (env : Env) (is_forbidden : Point → Bool) (mv : MoveV) : Bool :=
  (env.move_info mv).points.all (fun p => !is_forbidden p)

/-- State::add_move: accumulate the gamma into m_total_gamma, append the
    running total to the cumulative-gamma prefix and append the move. -/
def add_move (s : SimState) (c : Color) (mv : MoveV) (gamma : ℝ) : SimState :=
  let total := s.total_gamma + gamma
  { s with total_gamma := total,
           cumulative := s.cumulative ++ [total],
           moves := Function.update s.moves c (s.moves c ++ [mv]) }

/-- The shared inner loop of both State::add_moves overloads: for each
    tabled move of the piece anchored at the point, if it is not yet
    marked and check_move accepts it, mark it and add it with its gamma. -/
noncomputable def try_add (env : Env) (c : Color) (piece : Piece) (p : Point) (adj : ℕ)
    (s : SimState) : SimState :=
  (env.get_moves c piece p adj).foldl (fun s mv =>
    if mv ∉ s.marker c then
      match check_move env s.bd (s.bd.is_forbidden c) (env.move_info mv) with
      | some gamma =>
        add_move { s with marker := Function.update s.marker c (insert mv (s.marker c)) } c mv gamma
      | none => s
    else s) s

/-- State::add_moves(Point, Color, PiecesLeftList): enumerate every
    considered piece at the point (with the point's adjacency status) and
    record the point in moves_added_at. -/
noncomputable def add_moves (env : Env) (p : Point) (c : Color)
    (pieces_considered : List Piece) (s : SimState) : SimState :=
  let adj := s.bd.adj_status p c
  let s := pieces_considered.foldl (fun s piece => try_add env c piece p adj s) s
  { s with moves_added_at := Function.update s.moves_added_at c (insert p (s.moves_added_at c)) }

/-- State::add_moves(Point, Color, Piece, unsigned): enumerate a single
    piece at the point with a given adjacency status. -/
noncomputable def add_moves_piece (env : Env) (p : Point) (c : Color) (piece : Piece)
    (adj : ℕ) (s : SimState) : SimState :=
  try_add env c piece p adj s

/-- State::find_best_starting_point: among the non-forbidden starting
    points of the color, pick the one maximizing the weighted Euclidean
    distance to the occupied starting points (weight 2 for points owned
    by the color or its second color, the y axis scaled for trigon
    boards); the first maximizer in iteration order wins. -/
noncomputable def find_best_starting_point (s : SimState) (c : Color) : Option Point :=
  let is_trigon := s.bd.board_type = BoardType.trigon ∨ s.bd.board_type = BoardType.trigon_3
  let yscale : ℝ := if is_trigon then 1.732 else 1
  let colors : List Color := (List.range s.nu_colors).map (fun i => ⟨i % 4, by omega⟩)
  ((s.bd.starting_points c).foldl (fun acc p =>
    if s.bd.is_forbidden c p then acc
    else
      let px : ℝ := (s.bd.get_x p : ℝ)
      let py : ℝ := (s.bd.get_y p : ℝ)
      let d : ℝ := colors.foldl (fun d i =>
        (s.bd.starting_points i).foldl (fun d pp =>
          match s.bd.point_state pp with
          | none => d
          | some st =>
            let dx := (s.bd.get_x pp : ℝ) - px
            let dy := yscale * ((s.bd.get_y pp : ℝ) - py)
            let weight : ℝ := if st = c ∨ st = s.bd.second_color c then 2 else 1
            d + weight * Real.sqrt (dx * dx + dy * dy)) d) 0
      if d > acc.2 then (some p, d) else acc)
    ((none : Option Point), (-1 : ℝ))).1

/-- State::add_starting_moves: enumerate each considered piece at the
    single best starting point; acceptable moves are marked and appended,
    with the plain piece gamma when with_gamma is set. (The C++ code
    asserts that no enumerated move is already marked.) -/
noncomputable def add_starting_moves (env : Env) (c : Color) (pieces_considered : List Piece)
    (with_gamma : Bool) (s : SimState) : SimState :=
  match find_best_starting_point s c with
  | none => s
  | some p =>
    pieces_considered.foldl (fun s piece =>
      (env.get_moves c piece p 0).foldl (fun s mv =>
        if check_move_without_gamma env (s.bd.is_forbidden c) mv then
          let s := { s with marker := Function.update s.marker c (insert mv (s.marker c)) }
          if with_gamma then add_move s c mv (env.gamma_piece piece)
          else { s with moves := Function.update s.moves c (s.moves c ++ [mv]) }
        else s) s) s

/-- State::get_pieces_considered: the all-pieces table once the number of
    on-board pieces reaches min_move_all_considered or when
    force_consider_all_pieces is set, else the table keyed by the number
    of on-board pieces. -/
def get_pieces_considered (env : Env) (s : SimState) : ConsideredPtr :=
  let nu_moves := s.bd.nu_onboard_pieces
  if env.min_move_all_considered ≤ nu_moves ∨ s.force_consider_all_pieces then .all
  else .atMove nu_moves

/-- The head of State::init_moves_with_gamma: retarget the color's
    consideration table, reset the cumulative gamma prefix
    (m_total_gamma = 0), and clear the color's marks
    (marker.clear_all_set_known) and move list. -/
noncomputable def init_clear (env : Env) (c : Color) (s : SimState) : SimState :=
  { s with
    is_piece_considered := Function.update s.is_piece_considered c (get_pieces_considered env s),
    total_gamma := 0,
    cumulative := [],
    marker := Function.update s.marker c ((s.marker c) \ (s.moves c).toFinset),
    moves := Function.update s.moves c [] }

/-- The body of State::init_moves_with_gamma before its possible
    recursion: select the consideration table, reset the cumulative gamma
    prefix, clear the color's marks and list, and enumerate either the
    starting moves or every non-forbidden attach point; finally flag the
    list initialized and clear new_moves. -/
noncomputable def init_moves_once (env : Env) (c : Color) (s : SimState) : SimState :=
  let s1 := init_clear env c s
  let pieces_considered :=
    (s1.bd.pieces_left c).filter (fun piece => env.considered (get_pieces_considered env s) piece)
  let s2 :=
    if s1.bd.is_first_piece c then add_starting_moves env c pieces_considered true s1
    else (s1.bd.attach_points c).foldl (fun s p =>
      if s.bd.is_forbidden c p = false then add_moves env p c pieces_considered s else s) s1
  { s2 with
    is_move_list_initialized := Function.update s2.is_move_list_initialized c true,
    new_moves := Function.update s2.new_moves c [] }

/-- State::init_moves_with_gamma: one enumeration pass; when it ends with
    an empty list and force_consider_all_pieces was not yet set, set it
    and run the pass once more (the single level of recursion the flag
    allows). -/
noncomputable def init_moves_with_gamma (env : Env) (c : Color) (s : SimState) : SimState :=
  let s1 := init_moves_once env c s
  if (s1.moves c).isEmpty ∧ s1.force_consider_all_pieces = false then
    init_moves_once env c { s1 with force_consider_all_pieces := true }
  else s1

/-- The first block of State::update_moves ("find old moves that are
    still legal"): re-filter the previously listed moves, keeping a move
    (with a fresh gamma) when its piece is still left and check_move
    still accepts it, and clearing its mark otherwise. -/
noncomputable def update_retain (env : Env) (c : Color) (old_moves : List MoveV)
    (s : SimState) : SimState :=
  old_moves.foldl (fun s mv =>
    let info := env.move_info mv
    if info.piece ∈ s.bd.pieces_left c then
      match check_move env s.bd (s.bd.is_forbidden c) info with
      | some gamma => add_move s c mv gamma
      | none => { s with marker := Function.update s.marker c ((s.marker c).erase mv) }
    else { s with marker := Function.update s.marker c ((s.marker c).erase mv) }) s

/-- The second block of State::update_moves ("find new legal moves
    because of new pieces played by this color"): enumerate the
    non-forbidden, not yet enumerated attach points of the moves the
    color played since the last update. -/
noncomputable def update_new (env : Env) (c : Color) (pieces_considered : List Piece)
    (new_moves : List MoveV) (s : SimState) : SimState :=
  new_moves.foldl (fun s mv =>
    (env.move_info_ext mv).foldl (fun s p =>
      if s.bd.is_forbidden c p = false ∧ p ∉ s.moves_added_at c then
        add_moves env p c pieces_considered s
      else s) s) s

/-- The third block of State::update_moves ("generate moves for pieces
    not considered in the last position"): enumerate the given pieces at
    every non-forbidden attach point of the color. -/
noncomputable def update_widen (env : Env) (c : Color) (pieces2 : List Piece)
    (s : SimState) : SimState :=
  (s.bd.attach_points c).foldl (fun s p =>
    if s.bd.is_forbidden c p = false then
      pieces2.foldl (fun s piece => add_moves_piece env p c piece (s.bd.adj_status p c) s) s
    else s) s

/-- The piece selection of the third block of State::update_moves:
    enumerate, at every non-forbidden attach point, the pieces left that
    the old table did not consider but the new one does. -/
noncomputable def update_widen_all (env : Env) (c : Color) (ptr ptrNew : ConsideredPtr)
    (s : SimState) : SimState :=
  let pieces2 := (s.bd.pieces_left c).filter (fun piece =>
    !(env.considered ptr piece) && env.considered ptrNew piece)
  update_widen env c pieces2 s

/-- The tail of State::update_moves: when the consideration table of the
    color is not yet the all-pieces table, set force_consider_all_pieces
    if the list ran empty, and when the selected table changed, enumerate
    the newly considered pieces and retarget the color's table. -/
noncomputable def update_consider (env : Env) (c : Color) (s : SimState) : SimState :=
  let ptr := s.is_piece_considered c
  if ptr ≠ ConsideredPtr.all then
    let s2 := if (s.moves c).isEmpty then { s with force_consider_all_pieces := true } else s
    let ptrNew := get_pieces_considered env s2
    if ptr ≠ ptrNew then
      let s3 := update_widen_all env c ptr ptrNew s2
      { s3 with is_piece_considered := Function.update s3.is_piece_considered c ptrNew }
    else s2
  else s

/-- State::update_moves: re-filter the previously listed moves of the
    color, enumerate the attach points of the moves the color played
    since the last update, and enumerate the newly considered pieces when
    the consideration table changed (setting force_consider_all_pieces
    when the list ran empty). -/
noncomputable def update_moves (env : Env) (c : Color) (s : SimState) : SimState :=
  let s := { s with total_gamma := 0, cumulative := [] }
  let old_moves := s.moves c
  let s := { s with moves := Function.update s.moves c [] }
  let s := update_retain env c old_moves s
  let pieces_considered :=
    (s.bd.pieces_left c).filter (fun piece => env.considered (s.is_piece_considered c) piece)
  let s := update_new env c pieces_considered (s.new_moves c) s
  let s := { s with new_moves := Function.update s.new_moves c [] }
  update_consider env c s

/-- The gamma sampling at the end of State::gen_playout_move: draw a
    double, scale it by total_gamma and locate it in the cumulative-gamma
    prefix with lower_bound; on the sorted prefix the lower_bound index
    is the length of the maximal prefix of entries below the drawn value. -/
noncomputable def sample_move (s : SimState) (c : Color) : SimState × MoveV :=
  let r := s.total_gamma * s.rng.headD 0
  let idx := (s.cumulative.takeWhile (fun y => decide (y < r))).length
  ({ s with rng := s.rng.tail }, (s.moves c).getD idx MoveV.null)

/-- The head of the loop body of State::gen_playout_move: initialize the
    move list of the color to play when it was not yet initialized, else
    update it when the color still had moves, then record whether the
    list is non-empty in has_moves. -/
noncomputable def refresh_moves (env : Env) (s : SimState) : SimState :=
  let c := s.bd.to_play
  let s1 :=
    if s.is_move_list_initialized c = false then init_moves_with_gamma env c s
    else if s.has_moves c then update_moves env c s
    else s
  { s1 with has_moves := Function.update s1.has_moves c (!(s1.moves c).isEmpty) }

/-- Outcome of one iteration of the generation loop of
    State::gen_playout_move: a sampled move (the break), a playout
    termination (return false), or a recorded pass continuing the loop. -/
inductive StepResult where
  | found : SimState → MoveV → StepResult
  | stop : SimState → StepResult
  | nextPass : SimState → StepResult

/-- One iteration of the generation loop of State::gen_playout_move:
    refresh the list of the color to play; when it is non-empty, sample
    from it; otherwise terminate when this pass would be the last missing
    one or when the 2-player early-termination shortcut fires, else
    record a pass: advance to the next color, count the pass and mark
    symmetry broken. -/
noncomputable def playout_step (env : Env) (s : SimState) : StepResult :=
  let c := s.bd.to_play
  let s2 := refresh_moves env s
  if (s2.moves c).isEmpty = false then
    let r := sample_move s2 c
    .found r.1 r.2
  else if s2.nu_passes + 1 = s2.nu_colors then .stop s2
  else if s2.check_terminate_early ∧ s2.bd.score c < 0
      ∧ s2.has_moves (s2.bd.second_color c) = false then .stop s2
  else .nextPass { s2 with
    nu_passes := s2.nu_passes + 1,
    bd := s2.bd.set_to_play (s2.bd.get_next c),
    is_symmetry_broken := true }

/-- The generation loop of State::gen_playout_move, iterated through
    playout_step. The fuel bounds the number of iterations; each
    non-final iteration increments nu_passes and the loop returns false
    before nu_passes may reach nu_colors, so the nu_colors + 1 units the
    caller passes are never exhausted from a reachable state. -/
noncomputable def playout_loop (env : Env) : ℕ → SimState → SimState × Option MoveV
  | 0, s => (s, none)
  | fuel + 1, s =>
    match playout_step env s with
    | .found s' mv => (s', some mv)
    | .stop s' => (s', none)
    | .nextPass s' => playout_loop env fuel s'

/-- State::gen_playout_move: terminate when all colors passed in
    succession or when symmetry is unbroken with enough pieces on board;
    otherwise count a playout move, play the applicable last good reply
    (level 2 first, then level 1), or enter the generation loop. -/
noncomputable def gen_playout_move (env : Env) (s : SimState) (lgr1 lgr2 : MoveV) :
    SimState × Option MoveV :=
  if s.nu_passes = s.nu_colors then (s, none)
  else if s.is_symmetry_broken = false
      ∧ s.symmetry_min_nu_pieces ≤ s.bd.nu_onboard_pieces then (s, none)
  else
    let s := { s with nu_playout_moves := s.nu_playout_moves + 1 }
    if lgr2.is_regular ∧ s.bd.is_legal_nonpass lgr2 then
      ({ s with nu_last_good_reply_moves := s.nu_last_good_reply_moves + 1 }, some lgr2)
    else if lgr1.is_regular ∧ s.bd.is_legal_nonpass lgr1 then
      ({ s with nu_last_good_reply_moves := s.nu_last_good_reply_moves + 1 }, some lgr1)
    else
      playout_loop env (s.nu_colors + 1) s

/-- State::update_symmetry_broken, evaluated on the board as it stands
    after the move was played (the caller plays the move first, which
    advances the color to play): when the color now to play is color_0 or
    color_2 the flag becomes broken unless the symmetric point of every
    placement point is occupied by that color's second color, otherwise
    unless the symmetric point of every placement point is empty. -/
def update_symmetry_broken (env : Env) (bd : Board) (mv : MoveV) : Bool :=
  let to_play := bd.to_play
  let second_color := bd.second_color to_play
  let pts := (env.move_info mv).points
  if to_play = (0 : Color) ∨ to_play = (2 : Color) then
    !(pts.all fun p => decide (bd.point_state (env.symmetric_points p) = some second_color))
  else
    !(pts.all fun p => decide (bd.point_state (env.symmetric_points p) = none))

/-- State::play_playout: record the move in new_moves of the color to
    play, play it on the board, reset the pass counter and, when symmetry
    is still unbroken, re-evaluate it on the resulting board. -/
def play_playout (env : Env) (s : SimState) (mv : MoveV) : SimState :=
  let c := s.bd.to_play
  let s := { s with new_moves := Function.update s.new_moves c (s.new_moves c ++ [mv]) }
  let s := { s with bd := s.bd.play_nonpass (env.move_info mv), nu_passes := 0 }
  if s.is_symmetry_broken = false then
    { s with is_symmetry_broken := update_symmetry_broken env s.bd mv }
  else s

/-- State::play_expanded_child: a non-pass move is played like a playout
    move; a pass is played on the board, counted, and marks symmetry
    broken. -/
def play_expanded_child (env : Env) (s : SimState) (mv : MoveV) : SimState :=
  if mv.is_pass = false then play_playout env s mv
  else { s with
    bd := s.bd.play_pass,
    nu_passes := s.nu_passes + 1,
    is_symmetry_broken := true }

/-- State::start_simulation: count the simulation, restore the board
    snapshot, reset force_consider_all_pieces and the per-color move-list
    bookkeeping, and recount nu_passes from the trailing passes of the
    restored board's move history. Note that m_is_symmetry_broken is not
    assigned here, mirroring State.cpp, where no function of the state
    ever assigns it false. -/
def start_simulation (s : SimState) (_n : ℕ) : SimState :=
  let s := { s with
    nu_simulations := s.nu_simulations + 1,
    bd := s.snapshot,
    force_consider_all_pieces := false,
    has_moves := fun _ => true,
    is_move_list_initialized := fun _ => false,
    new_moves := fun _ => [],
    moves_added_at := fun _ => (∅ : Finset Point) }
  { s with nu_passes := (s.bd.history.reverse.takeWhile id).length }

/-- The per-player body of the result loop of State::evaluate_playout,
    iterated over the player indices. In 2-player variants the iteration
    for player 1 mirrors player 0's entry and leaves the loop before the
    statistics and bonuses. -/
noncomputable def eval_loop (np nc : ℕ) (points : Fin 4 → ℕ) (sorted : List ℕ)
    (score : Fin 4 → ℝ) (l : ℝ) :
    List ℕ → (Fin 4 → ℝ) → (Fin 4 → Stat) → Stat → ((Fin 4 → ℝ) × (Fin 4 → Stat) × Stat)
  | [], results, stats, statLen => (results, stats, statLen)
  | i :: rest, results, stats, statLen =>
    if np = 2 ∧ i = 1 then
      (Function.update results 1 (1 - results 0), stats, statLen)
    else
      let c : Fin 4 := ⟨i % 4, by omega⟩
      let sc := score c
      let game_result : ℝ :=
        if np = 2 then (if sc > 0 then 1 else if sc < 0 then 0 else 0.5)
        else
          let hits := (List.range nc).filter (fun j => sorted.getD j 0 = points c)
          (hits.foldl (fun acc j => acc + (j : ℝ) / ((nc : ℝ) - 1)) 0) / (hits.length : ℝ)
      let stat' := (stats c).add sc
      let dev := stat'.deviation
      let res := game_result +
        (if dev > 0 then 0.2 * sigmoid 2 ((sc - stat'.mean) / dev) else 0)
      let statLen' := statLen.add l
      let devL := statLen'.deviation
      let res := res +
        (if devL > 0 then
          (if game_result = 1 then -(0.12 * sigmoid 2 ((l - statLen'.mean) / devL))
           else if game_result = 0 then 0.12 * sigmoid 2 ((l - statLen'.mean) / devL)
           else 0)
         else 0)
      eval_loop np nc points sorted score l rest (Function.update results c res)
        (Function.update stats c stat') statLen'

/-- State::evaluate_playout: a symmetric position with enough pieces on
    board scores 0.5 for everyone; otherwise the per-player loop computes
    each player's game result (sign of the score for 2 players, shared
    mean rank of the sorted points otherwise) with the score-deviation
    and length bonuses, and team variants duplicate the first pair's
    entries. Entries the C++ code leaves unwritten are 0 here. -/
noncomputable def evaluate_playout (s : SimState) : SimState × (Fin 4 → ℝ) :=
  if s.is_symmetry_broken = false
      ∧ s.symmetry_min_nu_pieces ≤ s.bd.nu_onboard_pieces then
    (s, fun _ => 0.5)
  else
    let np := s.bd.nu_players
    let nc := s.nu_colors
    let points : Fin 4 → ℕ := fun c => if c.val < nc then s.bd.points_with_bonus c else 0
    let score : Fin 4 → ℝ := fun c =>
      if c.val < np then (s.bd.score c : ℝ)
      else if np < nc ∧ c.val = 2 then (s.bd.score 0 : ℝ)
      else if np < nc ∧ c.val = 3 then (s.bd.score 1 : ℝ)
      else 0
    let sorted : List ℕ :=
      if 2 < np then
        ((List.range nc).map (fun j => points ⟨j % 4, by omega⟩)).insertionSort (· ≤ ·)
      else []
    let l : ℝ := (s.bd.nu_moves : ℝ)
    let r := eval_loop np nc points sorted score l (List.range np) (fun _ => 0)
      s.stat_score s.stat_len
    let results :=
      if np < nc then Function.update (Function.update r.1 2 (r.1 0)) 3 (r.1 1) else r.1
    ({ s with stat_score := r.2.1, stat_len := r.2.2 }, results)

/-- The 2-player base game result of evaluate_playout: 1 for a positive
    score, 0 for a negative one, 0.5 for a tie. -/
noncomputable def game_result_sign (sc : ℝ) : ℝ :=
  if sc > 0 then 1 else if sc < 0 then 0 else 0.5

/-- The score-deviation bonus of evaluate_playout for one player: after
    adding the score to the running statistic, 0.2 * sigmoid(2,
    (score - mean) / deviation) when the deviation is positive. -/
noncomputable def score_bonus (stat : Stat) (sc : ℝ) : ℝ :=
  let stat' := stat.add sc
  let dev := stat'.deviation
  if dev > 0 then 0.2 * sigmoid 2 ((sc - stat'.mean) / dev) else 0

/-- The length bonus of evaluate_playout for one player: after adding
    the playout length to the running statistic, winners lose and losers
    gain 0.12 * sigmoid(2, (length - mean) / deviation) when the
    deviation is positive; ties get nothing. -/
noncomputable def len_bonus (statLen : Stat) (l : ℝ) (game_result : ℝ) : ℝ :=
  let stat' := statLen.add l
  let dev := stat'.deviation
  if dev > 0 then
    (if game_result = 1 then -(0.12 * sigmoid 2 ((l - stat'.mean) / dev))
     else if game_result = 0 then 0.12 * sigmoid 2 ((l - stat'.mean) / dev)
     else 0)
  else 0

/-- The full 2-player evaluate_playout result of player 0: base sign
    result plus score-deviation and length bonuses. -/
noncomputable def eval_player0 (s : SimState) : ℝ :=
  game_result_sign ((s.bd.score 0 : ℝ))
  + score_bonus (s.stat_score 0) ((s.bd.score 0 : ℝ))
  + len_bonus s.stat_len ((s.bd.nu_moves : ℝ)) (game_result_sign ((s.bd.score 0 : ℝ)))

/-- The level and budget fields of libpentobi_mcts::Player (Player.h);
    ValueType and the fixed time are floating-point values, modelled by
    rationals. -/
structure PlayerState where
  level : ℤ
  fixed_simulations : ℚ
  fixed_time : ℚ
deriving DecidableEq, Repr

/-- The three budget setters of libpentobi_mcts::Player. -/
inductive PlayerOp where
  | setFixedSimulations : ℚ → PlayerOp
  | setFixedTime : ℚ → PlayerOp
  | setLevel : ℤ → PlayerOp

/-- Player::set_fixed_simulations, Player::set_fixed_time and
    Player::set_level from Player.h. -/
def player_apply : PlayerState → PlayerOp → PlayerState
  | s, .setFixedSimulations n => { s with fixed_simulations := n, fixed_time := 0 }
  | s, .setFixedTime t => { s with fixed_time := t, fixed_simulations := 0 }
  | s, .setLevel l => { s with level := l, fixed_simulations := 0, fixed_time := 0 }

/-- A sequence of setter calls applied in order. -/
def player_apply_seq (s : PlayerState) (ops : List PlayerOp) : PlayerState :=
  ops.foldl player_apply s

/-- Nonnegativity of the gamma tables of a context; State::start_search
    only ever produces positive table entries. -/
def GammaNonneg (env : Env) : Prop :=
  (∀ piece, 0 ≤ env.gamma_piece piece) ∧ ∀ k, 0 ≤ env.gamma_nu_attach k

/-- A candidate move is acceptable for a color on a board: none of its
    placement points is forbidden and its piece is still left. -/
def MoveOk (env : Env) (bd : Board) (c : Color) (mv : MoveV) : Prop :=
  (∀ p ∈ (env.move_info mv).points, bd.is_forbidden c p = false)
  ∧ (env.move_info mv).piece ∈ bd.pieces_left c

/-- The move-list invariant of a color: the list has no duplicates, the
    marker holds exactly its set, and every listed move is acceptable on
    the current board. -/
def MovesInv (env : Env) (s : SimState) (c : Color) : Prop :=
  (s.moves c).Nodup
  ∧ (∀ mv, mv ∈ s.marker c ↔ mv ∈ s.moves c)
  ∧ ∀ mv ∈ s.moves c, MoveOk env s.bd c mv

/-- The cumulative-gamma invariant of a color: the prefix is as long as
    the move list, non-decreasing, its last entry (0 when empty) is
    total_gamma, and total_gamma is non-negative. -/
def CumOk (s : SimState) (c : Color) : Prop :=
  s.cumulative.length = (s.moves c).length
  ∧ s.cumulative.Chain' (· ≤ ·)
  ∧ s.total_gamma = s.cumulative.getLastD 0
  ∧ 0 ≤ s.total_gamma

/-- The observable frame of the move-generation operations: the board,
    the pass and color counters, the symmetry flag, the termination
    shortcut flag and the random stream, none of which the list
    maintenance touches. -/
def frame (s : SimState) : Board × ℕ × Bool × ℕ × Bool × List ℝ :=
  (s.bd, s.nu_passes, s.is_symmetry_broken, s.nu_colors, s.check_terminate_early, s.rng)

/-- An environment whose move table is empty, for concrete instances. -/
noncomputable def mkEnvNoMoves (mi : MoveV → MoveInfo) (sym : Point → Point) : Env where
  get_moves := fun _ _ _ _ => []
  move_info := mi
  move_info_ext := fun _ => []
  lv_local := fun _ _ => false
  lv_attach := fun _ _ => false
  lv_adj_attach := fun _ _ => false
  is_piece_considered_all := fun _ => true
  is_piece_considered_at := fun _ _ => true
  min_move_all_considered := 0
  symmetric_points := sym
  gamma_piece := fun _ => 1
  gamma_nu_attach := fun _ => 1
  get_moves_piece := by
    intro c piece p adj mv h
    exact absurd h (List.not_mem_nil _)
  get_moves_nodup := by
    intro c piece p adj
    exact List.nodup_nil

/-- A trivial concrete environment. -/
noncomputable def envT : Env := mkEnvNoMoves (fun _ => ⟨0, []⟩) id

/-- A concrete environment for the symmetry counterexample: every
    regular move occupies point 5, whose symmetric point is 7. -/
noncomputable def env3 : Env :=
  mkEnvNoMoves (fun mv => match mv with | .reg _ => ⟨0, [5]⟩ | _ => ⟨0, []⟩)
    (fun p => if p = 5 then 7 else p)

/-- A concrete environment whose move table yields one move per piece. -/
noncomputable def envM : Env where
  get_moves := fun _ piece _ _ => [MoveV.reg piece]
  move_info := fun mv => match mv with | .reg n => ⟨n, []⟩ | _ => ⟨0, []⟩
  move_info_ext := fun _ => []
  lv_local := fun _ _ => false
  lv_attach := fun _ _ => false
  lv_adj_attach := fun _ _ => false
  is_piece_considered_all := fun _ => true
  is_piece_considered_at := fun _ _ => true
  min_move_all_considered := 0
  symmetric_points := id
  gamma_piece := fun _ => 1
  gamma_nu_attach := fun _ => 1
  get_moves_piece := by
    intro c piece p adj mv h
    simp only [List.mem_singleton] at h
    subst h
    rfl
  get_moves_nodup := by
    intro c piece p adj
    exact List.nodup_singleton _

/-- A concrete empty duo-style board (2 colors, 2 players, every point
    empty, each color its own second color). -/
def bd0 : Board where
  nu_colors := 2
  nu_players := 2
  to_play := 0
  point_state := fun _ => none
  pieces_left := fun _ => [0]
  attach_points := fun _ => []
  starting_points := fun _ => []
  is_forbidden := fun _ _ => false
  is_first_piece := fun _ => false
  nu_onboard_pieces := 0
  history := []
  score := fun _ => 0
  points_with_bonus := fun _ => 0
  second_color := fun c => c
  adj_status := fun _ _ => 0
  is_legal_nonpass := fun _ => true
  get_x := fun _ => 0
  get_y := fun _ => 0
  board_type := .duo

/-- A concrete baseline simulation state over bd0. -/
noncomputable def s0 : SimState where
  bd := bd0
  snapshot := bd0
  moves := fun _ => []
  marker := fun _ => ∅
  cumulative := []
  total_gamma := 0
  new_moves := fun _ => []
  moves_added_at := fun _ => ∅
  is_move_list_initialized := fun _ => false
  has_moves := fun _ => true
  is_piece_considered := fun _ => .all
  force_consider_all_pieces := false
  nu_passes := 0
  nu_colors := 2
  symmetry_min_nu_pieces := 3
  is_symmetry_broken := false
  check_terminate_early := false
  nu_playout_moves := 0
  nu_last_good_reply_moves := 0
  nu_simulations := 0
  stat_score := fun _ => Stat.cleared
  stat_len := Stat.cleared
  rng := []

/-- The concrete state of the two-player evaluation counterexample: the
    playout was not terminated by symmetry, player 0's score is 0, player
    1's score is 2, and player 1's running score statistic has count 1 so
    that its deviation after adding the score is positive. -/
noncomputable def sC2 : SimState :=
  { s0 with
    is_symmetry_broken := true,
    bd := { bd0 with score := fun c => if c = 1 then 2 else 0 },
    stat_score := fun c => if c = 1 then { count := 1, mean := 0, m2 := 0 } else Stat.cleared }

/-- A state in a symmetric position with enough pieces on board for the
    symmetry heuristic to fire. -/
noncomputable def s0sym : SimState := { s0 with bd := { bd0 with nu_onboard_pieces := 3 } }

/-- A state with the symmetry flag already broken. -/
noncomputable def s9 : SimState := { s0 with is_symmetry_broken := true }

/-- An environment whose gamma tables are the ones State::start_search
    precomputes for a duo board with pieces of size 2 and 2 attach
    points. -/
noncomputable def envG : Env :=
  { envM with
    gamma_piece := init_gamma_piece .duo (fun _ => 2) (fun _ => 2),
    gamma_nu_attach := init_gamma_nu_attach }

/-- A state whose board has one attach point and two pieces left. -/
noncomputable def sM : SimState :=
  { s0 with bd := { bd0 with attach_points := fun _ => [4], pieces_left := fun _ => [0, 1] } }

/-- The state after the list-refresh step of the playout-step witness. -/
noncomputable def s8mid : SimState := refresh_moves envT s0

/-- The state the playout step reaches after recording a pass from s0. -/
noncomputable def s8next : SimState :=
  { s8mid with
    nu_passes := s8mid.nu_passes + 1,
    bd := s8mid.bd.set_to_play (s8mid.bd.get_next s0.bd.to_play),
    is_symmetry_broken := true }

/-- A fold preserves any projection its step function preserves. -/
theorem foldl_proj_eq {β ι γ : Type _} (g : β → γ) (f : β → ι → β) (l : List ι)
    (h : ∀ b a, g (f b a) = g b) : ∀ b : β, g (l.foldl f b) = g b := by
  induction l with
  | nil => intro b; rfl
  | cons a t ih =>
    intro b
    rw [List.foldl_cons, ih, h]

/-- A fold preserves an invariant its step function preserves for the
    elements of the list. -/
theorem foldl_invariant {β ι : Type _} (P : β → Prop) (Q : ι → Prop) (f : β → ι → β)
    (l : List ι) (hstep : ∀ b a, P b → Q a → P (f b a)) :
    ∀ b : β, (∀ a ∈ l, Q a) → P b → P (l.foldl f b) := by
  induction l with
  | nil => intro b _ hb; exact hb
  | cons a t ih =>
    intro b hl hb
    rw [List.foldl_cons]
    exact ih (f b a) (fun x hx => hl x (List.mem_cons_of_mem a hx))
      (hstep b a hb (hl a (List.mem_cons_self a t)))

/-- add_move leaves the frame unchanged. -/
theorem frame_add_move (s : SimState) (c : Color) (mv : MoveV) (gamma : ℝ) :
    frame (add_move s c mv gamma) = frame s := rfl

/-- try_add leaves the frame unchanged. -/
theorem frame_try_add (env : Env) (c : Color) (piece : Piece) (p : Point) (adj : ℕ)
    (s : SimState) : frame (try_add env c piece p adj s) = frame s := by
  unfold try_add
  refine foldl_proj_eq frame _ _ ?_ s
  intro b mv
  by_cases h : mv ∉ b.marker c
  · rw [if_pos h]
    cases check_move env b.bd (b.bd.is_forbidden c) (env.move_info mv) with
    | none => rfl
    | some g => rfl
  · rw [if_neg h]

/-- add_moves leaves the frame unchanged. -/
theorem frame_add_moves (env : Env) (p : Point) (c : Color) (pcs : List Piece)
    (s : SimState) : frame (add_moves env p c pcs s) = frame s := by
  unfold add_moves
  exact foldl_proj_eq frame _ _ (fun b piece => frame_try_add env c piece p _ b) s

/-- add_moves_piece leaves the frame unchanged. -/
theorem frame_add_moves_piece (env : Env) (p : Point) (c : Color) (piece : Piece)
    (adj : ℕ) (s : SimState) : frame (add_moves_piece env p c piece adj s) = frame s :=
  frame_try_add env c piece p adj s

/-- add_starting_moves leaves the frame unchanged. -/
theorem frame_add_starting_moves (env : Env) (c : Color) (pcs : List Piece)
    (wg : Bool) (s : SimState) : frame (add_starting_moves env c pcs wg s) = frame s := by
  unfold add_starting_moves
  cases find_best_starting_point s c with
  | none => rfl
  | some p =>
    refine foldl_proj_eq frame _ _ ?_ s
    intro b piece
    refine foldl_proj_eq frame _ _ ?_ b
    intro b' mv
    by_cases h : check_move_without_gamma env (b'.bd.is_forbidden c) mv
    · rw [if_pos h]
      cases wg with
      | true => rfl
      | false => rfl
    · rw [if_neg h]

/-- update_retain leaves the frame unchanged. -/
theorem frame_update_retain (env : Env) (c : Color) (old_moves : List MoveV)
    (s : SimState) : frame (update_retain env c old_moves s) = frame s := by
  unfold update_retain
  refine foldl_proj_eq frame _ _ ?_ s
  intro b mv
  dsimp only
  by_cases h : (env.move_info mv).piece ∈ b.bd.pieces_left c
  · rw [if_pos h]
    cases check_move env b.bd (b.bd.is_forbidden c) (env.move_info mv) with
    | none => rfl
    | some g => rfl
  · rw [if_neg h]
    rfl

/-- update_new leaves the frame unchanged. -/
theorem frame_update_new (env : Env) (c : Color) (pcs : List Piece)
    (new_moves : List MoveV) (s : SimState) :
    frame (update_new env c pcs new_moves s) = frame s := by
  unfold update_new
  refine foldl_proj_eq frame _ _ ?_ s
  intro b mv
  refine foldl_proj_eq frame _ _ ?_ b
  intro b' p
  by_cases h : b'.bd.is_forbidden c p = false ∧ p ∉ b'.moves_added_at c
  · rw [if_pos h, frame_add_moves]
  · rw [if_neg h]

/-- update_widen leaves the frame unchanged. -/
theorem frame_update_widen (env : Env) (c : Color) (pieces2 : List Piece)
    (s : SimState) : frame (update_widen env c pieces2 s) = frame s := by
  unfold update_widen
  refine foldl_proj_eq frame _ _ ?_ s
  intro b p
  by_cases h : b.bd.is_forbidden c p = false
  · rw [if_pos h]
    refine foldl_proj_eq frame _ _ ?_ b
    intro b' piece
    exact frame_add_moves_piece env p c piece _ b'
  · rw [if_neg h]

/-- init_moves_once leaves the frame unchanged. -/
theorem frame_init_moves_once (env : Env) (c : Color) (s : SimState) :
    frame (init_moves_once env c s) = frame s := by
  unfold init_moves_once
  dsimp only
  split
  · exact frame_add_starting_moves env c _ true _
  · refine foldl_proj_eq frame _ _ ?_ _
    intro b p
    by_cases hp : b.bd.is_forbidden c p = false
    · rw [if_pos hp, frame_add_moves]
    · rw [if_neg hp]

/-- init_moves_with_gamma leaves the frame unchanged. -/
theorem frame_init_moves (env : Env) (c : Color) (s : SimState) :
    frame (init_moves_with_gamma env c s) = frame s := by
  unfold init_moves_with_gamma
  dsimp only
  split
  · exact (frame_init_moves_once env c _).trans (frame_init_moves_once env c s)
  · exact frame_init_moves_once env c s

/-- update_widen_all leaves the frame unchanged. -/
theorem frame_update_widen_all (env : Env) (c : Color) (ptr ptrNew : ConsideredPtr)
    (s : SimState) : frame (update_widen_all env c ptr ptrNew s) = frame s := by
  unfold update_widen_all
  exact frame_update_widen env c _ s

/-- update_consider leaves the frame unchanged. -/
theorem frame_update_consider (env : Env) (c : Color) (s : SimState) :
    frame (update_consider env c s) = frame s := by
  unfold update_consider
  dsimp only
  split
  · by_cases hE : ((s.moves c).isEmpty : Bool) = true
    · rw [if_pos hE]
      split
      · exact frame_update_widen_all env c _ _ _
      · rfl
    · rw [if_neg hE]
      split
      · exact frame_update_widen_all env c _ _ _
      · rfl
  · rfl

/-- update_moves leaves the frame unchanged. -/
theorem frame_update_moves (env : Env) (c : Color) (s : SimState) :
    frame (update_moves env c s) = frame s := by
  unfold update_moves
  dsimp only
  exact (frame_update_consider env c _).trans
    ((frame_update_new env c _ _ _).trans (frame_update_retain env c _ _))

/-- refresh_moves leaves the frame unchanged. -/
theorem frame_refresh_moves (env : Env) (s : SimState) :
    frame (refresh_moves env s) = frame s := by
  unfold refresh_moves
  dsimp only
  split
  · exact frame_init_moves env s.bd.to_play s
  · split
    · exact frame_update_moves env s.bd.to_play s
    · rfl

/-- A frame equality determines the board. -/
theorem frame_eq_bd {t s : SimState} (h : frame t = frame s) : t.bd = s.bd :=
  congrArg Prod.fst h

/-- A frame equality determines the pass counter. -/
theorem frame_eq_nu_passes {t s : SimState} (h : frame t = frame s) :
    t.nu_passes = s.nu_passes :=
  congrArg (fun x => x.2.1) h

/-- A frame equality determines the color count. -/
theorem frame_eq_nu_colors {t s : SimState} (h : frame t = frame s) :
    t.nu_colors = s.nu_colors :=
  congrArg (fun x => x.2.2.2.1) h

/-- C8: the generation loop of gen_playout_move records a pass (pass
    counter incremented, play advanced to the next color) only when the
    move list of the color to play is empty after the initialize/update
    step, and doing so sets the symmetry-broken flag; the pass path of
    play_expanded_child likewise counts the pass and breaks symmetry. -/
theorem playout_pass_only_when_empty :
    (∀ (env : Env) (s s' : SimState), playout_step env s = .nextPass s' →
      (refresh_moves env s).moves s.bd.to_play = []
      ∧ s'.nu_passes = s.nu_passes + 1
      ∧ s'.is_symmetry_broken = true
      ∧ s'.bd.to_play = s.bd.get_next s.bd.to_play)
    ∧ ∀ (env : Env) (s : SimState),
      (play_expanded_child env s .pass).nu_passes = s.nu_passes + 1
      ∧ (play_expanded_child env s .pass).is_symmetry_broken = true := by
  constructor
  · intro env s s' h
    unfold playout_step at h
    dsimp only at h
    by_cases h1 : ((refresh_moves env s).moves s.bd.to_play).isEmpty = false
    · rw [if_pos h1] at h
      simp at h
    · rw [if_neg h1] at h
      have hempty : (refresh_moves env s).moves s.bd.to_play = [] := by
        rcases Bool.eq_false_or_eq_true ((refresh_moves env s).moves s.bd.to_play).isEmpty
          with hb | hb
        · exact List.isEmpty_iff.mp hb
        · exact absurd hb h1
      by_cases h2 : (refresh_moves env s).nu_passes + 1 = (refresh_moves env s).nu_colors
      · rw [if_pos h2] at h
        simp at h
      · rw [if_neg h2] at h
        by_cases h3 : (refresh_moves env s).check_terminate_early
            ∧ (refresh_moves env s).bd.score s.bd.to_play < 0
            ∧ (refresh_moves env s).has_moves
                ((refresh_moves env s).bd.second_color s.bd.to_play) = false
        · rw [if_pos h3] at h
          simp at h
        · rw [if_neg h3] at h
          have hfr := frame_refresh_moves env s
          cases h
          refine ⟨hempty, ?_, rfl, ?_⟩
          · simp [frame_eq_nu_passes hfr]
          · show ((refresh_moves env s).bd.set_to_play
                ((refresh_moves env s).bd.get_next s.bd.to_play)).to_play
              = s.bd.get_next s.bd.to_play
            rw [frame_eq_bd hfr]
            rfl
  · intro env s
    exact ⟨rfl, rfl⟩

/-- Witness for playout_pass_only_when_empty: from the concrete state
    s0 the playout step records a pass reaching s8next. -/
theorem playout_pass_only_when_empty_witness :
    playout_step envT s0 = .nextPass s8next
    ∧ ((refresh_moves envT s0).moves s0.bd.to_play = []
      ∧ s8next.nu_passes = s0.nu_passes + 1
      ∧ s8next.is_symmetry_broken = true
      ∧ s8next.bd.to_play = s0.bd.get_next s0.bd.to_play) :=
  ⟨rfl, playout_pass_only_when_empty.1 envT s0 s8next rfl⟩

/-- C1: whenever the symmetry-broken flag is false and at least
    symmetry_min_nu_pieces pieces are on the board, gen_playout_move
    returns false without generating a move (leaving the state
    untouched), and evaluate_playout returns 0.5 for all four entries. -/
theorem gen_playout_symmetry_terminates (env : Env) (s : SimState) (lgr1 lgr2 : MoveV)
    (hb : s.is_symmetry_broken = false)
    (hn : s.symmetry_min_nu_pieces ≤ s.bd.nu_onboard_pieces) :
    gen_playout_move env s lgr1 lgr2 = (s, none)
    ∧ (evaluate_playout s).1 = s
    ∧ ∀ c : Fin 4, (evaluate_playout s).2 c = 0.5 := by
  refine ⟨?_, ?_, ?_⟩
  · unfold gen_playout_move
    rcases eq_or_ne s.nu_passes s.nu_colors with h | h
    · rw [if_pos h]
    · rw [if_neg h, if_pos ⟨hb, hn⟩]
  · unfold evaluate_playout
    rw [if_pos ⟨hb, hn⟩]
  · intro c
    unfold evaluate_playout
    rw [if_pos ⟨hb, hn⟩]

/-- Witness for gen_playout_symmetry_terminates at the concrete state
    s0sym. -/
theorem gen_playout_symmetry_terminates_witness :
    s0sym.is_symmetry_broken = false
    ∧ s0sym.symmetry_min_nu_pieces ≤ s0sym.bd.nu_onboard_pieces
    ∧ (gen_playout_move envT s0sym .null .null = (s0sym, none)
        ∧ (evaluate_playout s0sym).1 = s0sym
        ∧ ∀ c : Fin 4, (evaluate_playout s0sym).2 c = 0.5) :=
  ⟨rfl, by decide,
    gen_playout_symmetry_terminates envT s0sym .null .null rfl (by decide)⟩

/-- C4 (code bug): State::start_simulation does not reset the
    symmetry-broken flag; at the concrete failing input s9, whose flag is
    true at the end of the previous simulation, the flag is still true
    after start_simulation, where the spec requires it to be reset to
    false. -/
theorem start_simulation_keeps_symmetry_flag :
    s9.is_symmetry_broken = true
    ∧ (start_simulation s9 1).is_symmetry_broken = true := ⟨rfl, rfl⟩

/-- C9: when the playout is not terminated (fewer than nu_colors passes,
    symmetry check not firing), a regular and currently legal lgr2 is
    returned directly, counting one playout move and one last-good-reply
    hit and leaving everything else (move lists, cumulative gamma, the
    random stream) untouched; lgr1 is used the same way only when lgr2
    does not apply. -/
theorem gen_playout_last_good_reply (env : Env) (s : SimState) (lgr1 lgr2 : MoveV)
    (hp : s.nu_passes < s.nu_colors)
    (hs : ¬(s.is_symmetry_broken = false
        ∧ s.symmetry_min_nu_pieces ≤ s.bd.nu_onboard_pieces)) :
    (lgr2.is_regular → s.bd.is_legal_nonpass lgr2 →
      gen_playout_move env s lgr1 lgr2 =
        ({ s with nu_playout_moves := s.nu_playout_moves + 1,
                  nu_last_good_reply_moves := s.nu_last_good_reply_moves + 1 }, some lgr2))
    ∧ (¬(lgr2.is_regular ∧ s.bd.is_legal_nonpass lgr2) →
        lgr1.is_regular → s.bd.is_legal_nonpass lgr1 →
      gen_playout_move env s lgr1 lgr2 =
        ({ s with nu_playout_moves := s.nu_playout_moves + 1,
                  nu_last_good_reply_moves := s.nu_last_good_reply_moves + 1 }, some lgr1)) := by
  have hne : s.nu_passes ≠ s.nu_colors := Nat.ne_of_lt hp
  constructor
  · intro h2r h2l
    unfold gen_playout_move
    rw [if_neg hne, if_neg hs, if_pos ⟨h2r, h2l⟩]
  · intro h2 h1r h1l
    unfold gen_playout_move
    rw [if_neg hne, if_neg hs, if_neg h2, if_pos ⟨h1r, h1l⟩]

/-- Witness for gen_playout_last_good_reply at the concrete state s9
    with lgr2 the regular move 5. -/
theorem gen_playout_last_good_reply_witness :
    s9.nu_passes < s9.nu_colors
    ∧ ¬(s9.is_symmetry_broken = false
        ∧ s9.symmetry_min_nu_pieces ≤ s9.bd.nu_onboard_pieces)
    ∧ (MoveV.reg 5).is_regular = true
    ∧ s9.bd.is_legal_nonpass (.reg 5) = true
    ∧ gen_playout_move envT s9 .null (.reg 5) =
        ({ s9 with nu_playout_moves := s9.nu_playout_moves + 1,
                   nu_last_good_reply_moves := s9.nu_last_good_reply_moves + 1 }, some (.reg 5)) :=
  ⟨by decide, by simp [s9, s0], rfl, rfl,
    (gen_playout_last_good_reply envT s9 .null (.reg 5) (by decide)
      (by simp [s9, s0])).1 rfl rfl⟩

/-- With 2 or 4 on-board colors, the successor of the second player of a
    pair (color_1 or color_3) is the first player of a pair (color_0 or
    color_2). -/
theorem get_next_second (bd : Board) (hnc : bd.nu_colors = 2 ∨ bd.nu_colors = 4)
    (hc : bd.to_play = 1 ∨ bd.to_play = 3) :
    bd.get_next bd.to_play = 0 ∨ bd.get_next bd.to_play = 2 := by
  unfold Board.get_next
  rcases hc with hc | hc <;> rcases hnc with hn | hn <;> rw [hc, hn] <;> decide

/-- With 2 or 4 on-board colors, the successor of the first player of a
    pair (color_0 or color_2) is not a first player of a pair. -/
theorem get_next_first (bd : Board) (hnc : bd.nu_colors = 2 ∨ bd.nu_colors = 4)
    (hlt : bd.to_play.val < bd.nu_colors)
    (hc : bd.to_play = 0 ∨ bd.to_play = 2) :
    ¬(bd.get_next bd.to_play = 0 ∨ bd.get_next bd.to_play = 2) := by
  rcases hc with hc | hc
  · unfold Board.get_next
    rcases hnc with hn | hn <;> rw [hc, hn] <;> decide
  · rcases hnc with hn | hn
    · rw [hc, hn] at hlt
      exact absurd hlt (by decide)
    · unfold Board.get_next
      rw [hc, hn]
      decide

/-- After play_playout with an unbroken flag, the flag equals
    update_symmetry_broken evaluated on the post-move board. -/
theorem play_playout_flag (env : Env) (s : SimState) (mv : MoveV)
    (hb : s.is_symmetry_broken = false) :
    (play_playout env s mv).is_symmetry_broken
      = update_symmetry_broken env (s.bd.play_nonpass (env.move_info mv)) mv := by
  unfold play_playout
  dsimp only
  rw [if_pos hb]

/-- C3 (amended): while symmetry is unbroken, after a non-pass playout
    move by color c the branch of update_symmetry_broken is selected by
    the color to play after the move, the successor of c. When c is
    color_1 or color_3 (so the successor is color_0 or color_2), the flag
    stays false iff the symmetric point of every placement point is
    occupied by the second color of the post-move color to play (in Duo,
    c's opponent); when c is color_0 or color_2, it stays false iff the
    symmetric point of every placement point is empty; otherwise it is
    set true. The claim as frozen assigns the two conditions to the
    opposite colors. -/
theorem play_playout_symmetry (env : Env) (s : SimState) (mv : MoveV)
    (hb : s.is_symmetry_broken = false)
    (hnc : s.bd.nu_colors = 2 ∨ s.bd.nu_colors = 4)
    (hlt : s.bd.to_play.val < s.bd.nu_colors) :
    ((s.bd.to_play = 1 ∨ s.bd.to_play = 3) →
      ((play_playout env s mv).is_symmetry_broken = false ↔
        ∀ p ∈ (env.move_info mv).points,
          (s.bd.play_nonpass (env.move_info mv)).point_state (env.symmetric_points p)
            = some ((s.bd.play_nonpass (env.move_info mv)).second_color
                (s.bd.play_nonpass (env.move_info mv)).to_play)))
    ∧ ((s.bd.to_play = 0 ∨ s.bd.to_play = 2) →
      ((play_playout env s mv).is_symmetry_broken = false ↔
        ∀ p ∈ (env.move_info mv).points,
          (s.bd.play_nonpass (env.move_info mv)).point_state (env.symmetric_points p)
            = none)) := by
  have hto : (s.bd.play_nonpass (env.move_info mv)).to_play = s.bd.get_next s.bd.to_play := rfl
  rw [play_playout_flag env s mv hb]
  constructor
  · intro hc
    have hbranch := get_next_second s.bd hnc hc
    unfold update_symmetry_broken
    dsimp only
    rw [hto, if_pos hbranch]
    simp [List.all_eq_true]
  · intro hc
    have hbranch := get_next_first s.bd hnc hlt hc
    unfold update_symmetry_broken
    dsimp only
    rw [hto, if_neg hbranch]
    simp [List.all_eq_true]

/-- Witness for play_playout_symmetry at the concrete environment env3
    and state s0 with the regular move 1. -/
theorem play_playout_symmetry_witness :
    s0.is_symmetry_broken = false
    ∧ (s0.bd.nu_colors = 2 ∨ s0.bd.nu_colors = 4)
    ∧ s0.bd.to_play.val < s0.bd.nu_colors
    ∧ (((s0.bd.to_play = 0 ∨ s0.bd.to_play = 2) →
        ((play_playout env3 s0 (.reg 1)).is_symmetry_broken = false ↔
          ∀ p ∈ (env3.move_info (.reg 1)).points,
            (s0.bd.play_nonpass (env3.move_info (.reg 1))).point_state
              (env3.symmetric_points p) = none))) :=
  ⟨rfl, Or.inl rfl, by decide,
    (play_playout_symmetry env3 s0 (.reg 1) rfl (Or.inl rfl) (by decide)).2⟩

/-- Counterexample to C3 as frozen: at env3 and s0 the mover is color_0
    and every symmetric point of the move is empty (not owned by the
    opponent), yet the symmetry-broken flag stays false, where the claim
    requires σ of every placement point to be owned by color_0's opponent
    for the flag to stay false. -/
theorem play_playout_symmetry_counterexample :
    s0.bd.to_play = (0 : Color)
    ∧ s0.is_symmetry_broken = false
    ∧ (play_playout env3 s0 (.reg 1)).is_symmetry_broken = false
    ∧ (env3.move_info (.reg 1)).points = [5]
    ∧ (play_playout env3 s0 (.reg 1)).bd.point_state (env3.symmetric_points 5) = none :=
  ⟨rfl, rfl, rfl, rfl, rfl⟩

/-- C5: with the gamma tables precomputed by State::start_search, every
    move accepted by check_move receives the gamma
    size_factor^(piece_size-1) * attach_factor^(piece_nu_attach-1),
    multiplied, when the move is local, by 10^(10k) for its k local
    attach points, and further by 1e5 when it is additionally adjacent to
    a recent opponent attach point; the size factors are 5/3/5/5 and the
    attach factors 1/1.8/1/1 for classic/duo/trigon/trigon_3. -/
theorem check_move_gamma_formula :
    (∀ (bt : BoardType) (psize pnatt : Piece → ℕ) (env : Env),
      env.gamma_piece = init_gamma_piece bt psize pnatt →
      env.gamma_nu_attach = init_gamma_nu_attach →
      ∀ (bd : Board) (forb : Point → Bool) (info : MoveInfo) (g : ℝ),
      check_move env bd forb info = some g →
      g = gamma_size_factor bt ^ (psize info.piece - 1)
          * gamma_nu_attach_factor bt ^ (pnatt info.piece - 1)
          * (if info.points.any (env.lv_local bd) then
              (10 : ℝ) ^ (10 * (info.points.filter (env.lv_attach bd)).length)
                * (if info.points.any (env.lv_adj_attach bd) then 100000 else 1)
            else 1))
    ∧ gamma_size_factor .classic = 5 ∧ gamma_size_factor .duo = 3
    ∧ gamma_size_factor .trigon = 5 ∧ gamma_size_factor .trigon_3 = 5
    ∧ gamma_nu_attach_factor .classic = 1 ∧ gamma_nu_attach_factor .duo = 1.8
    ∧ gamma_nu_attach_factor .trigon = 1 ∧ gamma_nu_attach_factor .trigon_3 = 1 := by
  refine ⟨?_, rfl, rfl, rfl, rfl, rfl, rfl, rfl, rfl⟩
  intro bt psize pnatt env hgp hgn bd forb info g h
  unfold check_move at h
  by_cases hf : info.points.any (fun p => forb p)
  · rw [if_pos hf] at h
    simp at h
  · rw [if_neg hf] at h
    dsimp only at h
    have hg := Option.some.inj h
    rw [hgp, hgn] at hg
    unfold init_gamma_piece init_gamma_nu_attach at hg
    have h10 : (1e10 : ℝ) = (10 : ℝ) ^ (10 : ℕ) := by norm_num
    rw [h10, ← pow_mul] at hg
    by_cases hl : info.points.any (env.lv_local bd)
    · rw [if_pos hl] at hg ⊢
      by_cases ha : info.points.any (env.lv_adj_attach bd)
      · rw [if_pos ha] at hg ⊢
        rw [← hg]
        have h5 : (1e5 : ℝ) = 100000 := by norm_num
        rw [h5]
        ring
      · rw [if_neg ha] at hg ⊢
        rw [← hg]
        ring
    · rw [if_neg hl] at hg ⊢
      rw [← hg, mul_one]

/-- Witness for check_move_gamma_formula on a duo board with a piece of
    size 2 and 2 attach points, at a non-local move on point 1. -/
theorem check_move_gamma_formula_witness :
    envG.gamma_piece = init_gamma_piece .duo (fun _ => 2) (fun _ => 2)
    ∧ envG.gamma_nu_attach = init_gamma_nu_attach
    ∧ check_move envG bd0 (fun _ => false) ⟨0, [1]⟩ = some (envG.gamma_piece 0)
    ∧ envG.gamma_piece 0 =
        gamma_size_factor .duo ^ ((fun _ : Piece => 2) 0 - 1)
          * gamma_nu_attach_factor .duo ^ ((fun _ : Piece => 2) 0 - 1)
          * (if (([1] : List Point).any (envG.lv_local bd0)) then
              (10 : ℝ) ^ (10 * (([1] : List Point).filter (envG.lv_attach bd0)).length)
                * (if (([1] : List Point).any (envG.lv_adj_attach bd0)) then 100000 else 1)
            else 1) :=
  ⟨rfl, rfl, rfl,
    check_move_gamma_formula.1 .duo (fun _ => 2) (fun _ => 2) envG rfl rfl bd0
      (fun _ => false) ⟨0, [1]⟩ (envG.gamma_piece 0) rfl⟩

/-- The last entry of a list extended by one element. -/
theorem getLastD_concat_eq (l : List ℝ) (a d : ℝ) : (l ++ [a]).getLastD d = a := by
  induction l generalizing d with
  | nil => rfl
  | cons x t ih =>
    rw [List.cons_append, List.getLastD_cons]
    exact ih x

/-- Every gamma check_move returns is non-negative when the gamma tables
    are. -/
theorem check_move_nonneg (env : Env) (h : GammaNonneg env) (bd : Board)
    (forb : Point → Bool) (info : MoveInfo) (g : ℝ)
    (hc : check_move env bd forb info = some g) : 0 ≤ g := by
  unfold check_move at hc
  by_cases hf : info.points.any (fun p => forb p)
  · rw [if_pos hf] at hc
    simp at hc
  · rw [if_neg hf] at hc
    dsimp only at hc
    have hg := Option.some.inj hc
    rw [← hg]
    by_cases hl : info.points.any (env.lv_local bd)
    · rw [if_pos hl]
      refine mul_nonneg (mul_nonneg (h.1 _) (h.2 _)) ?_
      by_cases ha : info.points.any (env.lv_adj_attach bd)
      · rw [if_pos ha]
        norm_num
      · rw [if_neg ha]
        norm_num
    · rw [if_neg hl]
      exact h.1 _

/-- add_move with a non-negative gamma preserves the cumulative-gamma
    invariant. -/
theorem add_move_cumok {s : SimState} {c : Color} (mv : MoveV) {g : ℝ}
    (h : CumOk s c) (hg : 0 ≤ g) : CumOk (add_move s c mv g) c := by
  obtain ⟨hlen, hchain, hlast, hnn⟩ := h
  unfold add_move CumOk
  dsimp only
  rw [Function.update_same]
  refine ⟨by simp [hlen], ?_, ?_, ?_⟩
  · rw [List.chain'_append]
    refine ⟨hchain, List.chain'_singleton _, ?_⟩
    intro x hx y hy
    rw [List.head?_cons, Option.mem_def, Option.some.injEq] at hy
    have hxl : s.cumulative.getLastD 0 = x := by
      rw [List.getLastD_eq_getLast?, hx]
      rfl
    rw [← hy, ← hxl, ← hlast]
    exact le_add_of_nonneg_right hg
  · rw [getLastD_concat_eq]
  · exact add_nonneg hnn hg

/-- try_add preserves the cumulative-gamma invariant. -/
theorem try_add_cumok (env : Env) (h : GammaNonneg env) (c : Color) (piece : Piece)
    (p : Point) (adj : ℕ) (s : SimState) (hs : CumOk s c) :
    CumOk (try_add env c piece p adj s) c := by
  unfold try_add
  refine foldl_invariant (fun b => CumOk b c) (fun _ => True) _ _ ?_ s (fun _ _ => trivial) hs
  intro b mv hb _
  dsimp only
  by_cases hm : mv ∉ b.marker c
  · rw [if_pos hm]
    cases hc : check_move env b.bd (b.bd.is_forbidden c) (env.move_info mv) with
    | none => exact hb
    | some g => exact add_move_cumok mv hb (check_move_nonneg env h _ _ _ g hc)
  · rw [if_neg hm]
    exact hb

/-- add_moves preserves the cumulative-gamma invariant. -/
theorem add_moves_cumok (env : Env) (h : GammaNonneg env) (p : Point) (c : Color)
    (pcs : List Piece) (s : SimState) (hs : CumOk s c) :
    CumOk (add_moves env p c pcs s) c := by
  unfold add_moves
  dsimp only
  have : CumOk (pcs.foldl (fun b piece => try_add env c piece p (s.bd.adj_status p c) b) s) c := by
    refine foldl_invariant (fun b => CumOk b c) (fun _ => True) _ _ ?_ s (fun _ _ => trivial) hs
    intro b piece hb _
    exact try_add_cumok env h c piece p _ b hb
  exact this

/-- add_starting_moves with gamma preserves the cumulative-gamma
    invariant. -/
theorem add_starting_moves_cumok (env : Env) (h : GammaNonneg env) (c : Color)
    (pcs : List Piece) (s : SimState) (hs : CumOk s c) :
    CumOk (add_starting_moves env c pcs true s) c := by
  unfold add_starting_moves
  cases find_best_starting_point s c with
  | none => exact hs
  | some p =>
    refine foldl_invariant (fun b => CumOk b c) (fun _ => True) _ _ ?_ s (fun _ _ => trivial) hs
    intro b piece hb _
    refine foldl_invariant (fun b => CumOk b c) (fun _ => True) _ _ ?_ b (fun _ _ => trivial) hb
    intro b' mv hb' _
    dsimp only
    by_cases hcm : check_move_without_gamma env (b'.bd.is_forbidden c) mv
    · rw [if_pos hcm, if_pos rfl]
      exact add_move_cumok mv hb' (h.1 piece)
    · rw [if_neg hcm]
      exact hb'

/-- init_moves_once establishes the cumulative-gamma invariant. -/
theorem init_moves_once_cumok (env : Env) (h : GammaNonneg env) (c : Color)
    (s : SimState) : CumOk (init_moves_once env c s) c := by
  unfold init_moves_once
  dsimp only
  have hbase : ∀ t : SimState, t.cumulative = [] → t.total_gamma = 0 → t.moves c = [] →
      CumOk t c := by
    intro t h1 h2 h3
    exact ⟨by rw [h1, h3]; rfl, by rw [h1]; exact List.chain'_nil, by rw [h1, h2]; rfl,
      by rw [h2]⟩
  split
  · exact add_starting_moves_cumok env h c _ _ (hbase _ rfl rfl (by simp [init_clear]))
  · refine foldl_invariant (fun b => CumOk b c) (fun _ => True) _ _ ?_ _ (fun _ _ => trivial)
      (hbase _ rfl rfl (by simp [init_clear]))
    intro b p hb _
    by_cases hp : b.bd.is_forbidden c p = false
    · rw [if_pos hp]
      exact add_moves_cumok env h p c _ b hb
    · rw [if_neg hp]
      exact hb

/-- init_moves_with_gamma establishes the cumulative-gamma invariant. -/
theorem init_moves_cumok (env : Env) (h : GammaNonneg env) (c : Color)
    (s : SimState) : CumOk (init_moves_with_gamma env c s) c := by
  unfold init_moves_with_gamma
  dsimp only
  split
  · exact init_moves_once_cumok env h c _
  · exact init_moves_once_cumok env h c s

/-- update_retain preserves the cumulative-gamma invariant. -/
theorem update_retain_cumok (env : Env) (h : GammaNonneg env) (c : Color)
    (old_moves : List MoveV) (s : SimState) (hs : CumOk s c) :
    CumOk (update_retain env c old_moves s) c := by
  unfold update_retain
  refine foldl_invariant (fun b => CumOk b c) (fun _ => True) _ _ ?_ s (fun _ _ => trivial) hs
  intro b mv hb _
  dsimp only
  by_cases hpl : (env.move_info mv).piece ∈ b.bd.pieces_left c
  · rw [if_pos hpl]
    cases hc : check_move env b.bd (b.bd.is_forbidden c) (env.move_info mv) with
    | none => exact hb
    | some g => exact add_move_cumok mv hb (check_move_nonneg env h _ _ _ g hc)
  · rw [if_neg hpl]
    exact hb

/-- update_new preserves the cumulative-gamma invariant. -/
theorem update_new_cumok (env : Env) (h : GammaNonneg env) (c : Color)
    (pcs : List Piece) (new_moves : List MoveV) (s : SimState) (hs : CumOk s c) :
    CumOk (update_new env c pcs new_moves s) c := by
  unfold update_new
  refine foldl_invariant (fun b => CumOk b c) (fun _ => True) _ _ ?_ s (fun _ _ => trivial) hs
  intro b mv hb _
  refine foldl_invariant (fun b => CumOk b c) (fun _ => True) _ _ ?_ b (fun _ _ => trivial) hb
  intro b' p hb' _
  by_cases hfp : b'.bd.is_forbidden c p = false ∧ p ∉ b'.moves_added_at c
  · rw [if_pos hfp]
    exact add_moves_cumok env h p c pcs b' hb'
  · rw [if_neg hfp]
    exact hb'

/-- update_widen preserves the cumulative-gamma invariant. -/
theorem update_widen_cumok (env : Env) (h : GammaNonneg env) (c : Color)
    (pieces2 : List Piece) (s : SimState) (hs : CumOk s c) :
    CumOk (update_widen env c pieces2 s) c := by
  unfold update_widen
  refine foldl_invariant (fun b => CumOk b c) (fun _ => True) _ _ ?_ s (fun _ _ => trivial) hs
  intro b p hb _
  by_cases hfp : b.bd.is_forbidden c p = false
  · rw [if_pos hfp]
    refine foldl_invariant (fun b => CumOk b c) (fun _ => True) _ _ ?_ b (fun _ _ => trivial) hb
    intro b' piece hb' _
    exact try_add_cumok env h c piece p _ b' hb'
  · rw [if_neg hfp]
    exact hb

/-- update_widen_all preserves the cumulative-gamma invariant. -/
theorem update_widen_all_cumok (env : Env) (h : GammaNonneg env) (c : Color)
    (ptr ptrNew : ConsideredPtr) (s : SimState) (hs : CumOk s c) :
    CumOk (update_widen_all env c ptr ptrNew s) c := by
  unfold update_widen_all
  exact update_widen_cumok env h c _ s hs

/-- update_consider preserves the cumulative-gamma invariant. -/
theorem update_consider_cumok (env : Env) (h : GammaNonneg env) (c : Color)
    (s : SimState) (hs : CumOk s c) : CumOk (update_consider env c s) c := by
  unfold update_consider
  dsimp only
  split
  · by_cases hE : ((s.moves c).isEmpty : Bool) = true
    · rw [if_pos hE]
      split
      · exact update_widen_all_cumok env h c _ _ _ hs
      · exact hs
    · rw [if_neg hE]
      split
      · exact update_widen_all_cumok env h c _ _ _ hs
      · exact hs
  · exact hs

/-- update_moves establishes the cumulative-gamma invariant. -/
theorem update_moves_cumok (env : Env) (h : GammaNonneg env) (c : Color)
    (s : SimState) : CumOk (update_moves env c s) c := by
  unfold update_moves
  dsimp only
  refine update_consider_cumok env h c _ (update_new_cumok env h c _ _ _ ?_)
  refine update_retain_cumok env h c _ _ ?_
  exact ⟨by simp, List.chain'_nil, rfl, le_refl 0⟩

/-- C7: with non-negative gamma tables (as start_search produces), the
    cumulative-gamma prefix is re-established by init_moves_with_gamma
    and update_moves and preserved by add_moves and add_move: it is as
    long as the move list, non-decreasing, ends in total_gamma, and
    total_gamma is non-negative. -/
theorem cumulative_gamma_invariant (env : Env) (h : GammaNonneg env) :
    (∀ (c : Color) (s : SimState), CumOk (init_moves_with_gamma env c s) c)
    ∧ (∀ (c : Color) (s : SimState), CumOk (update_moves env c s) c)
    ∧ (∀ (p : Point) (c : Color) (pcs : List Piece) (s : SimState),
        CumOk s c → CumOk (add_moves env p c pcs s) c)
    ∧ ∀ (c : Color) (mv : MoveV) (g : ℝ) (s : SimState),
        CumOk s c → 0 ≤ g → CumOk (add_move s c mv g) c :=
  ⟨fun c s => init_moves_cumok env h c s,
    fun c s => update_moves_cumok env h c s,
    fun p c pcs s hs => add_moves_cumok env h p c pcs s hs,
    fun _ mv _ _ hs hg => add_move_cumok mv hs hg⟩

/-- Witness for cumulative_gamma_invariant at the concrete environment
    envM and state sM. -/
theorem cumulative_gamma_invariant_witness :
    GammaNonneg envM
    ∧ CumOk (init_moves_with_gamma envM 0 sM) 0
    ∧ CumOk (update_moves envM 0 sM) 0
    ∧ (CumOk sM 0 → CumOk (add_moves envM 4 0 [0] sM) 0) :=
  ⟨⟨fun _ => zero_le_one, fun _ => zero_le_one⟩,
    (cumulative_gamma_invariant envM ⟨fun _ => zero_le_one, fun _ => zero_le_one⟩).1 0 sM,
    (cumulative_gamma_invariant envM ⟨fun _ => zero_le_one, fun _ => zero_le_one⟩).2.1 0 sM,
    fun hs => (cumulative_gamma_invariant envM
      ⟨fun _ => zero_le_one, fun _ => zero_le_one⟩).2.2.1 4 0 [0] sM hs⟩

/-- A move accepted by check_move has no forbidden placement point. -/
theorem check_move_points (env : Env) (bd : Board) (forb : Point → Bool) (info : MoveInfo)
    (g : ℝ) (hc : check_move env bd forb info = some g) :
    ∀ p ∈ info.points, forb p = false := by
  unfold check_move at hc
  by_cases hf : info.points.any (fun p => forb p)
  · rw [if_pos hf] at hc
    simp at hc
  · intro p hp
    rcases Bool.eq_false_or_eq_true (forb p) with h | h
    · exact absurd (List.any_eq_true.mpr ⟨p, hp, h⟩) hf
    · exact h

/-- A move accepted by check_move_without_gamma has no forbidden
    placement point. -/
theorem check_move_without_gamma_points (env : Env) (forb : Point → Bool) (mv : MoveV)
    (hc : check_move_without_gamma env forb mv = true) :
    ∀ p ∈ (env.move_info mv).points, forb p = false := by
  unfold check_move_without_gamma at hc
  rw [List.all_eq_true] at hc
  intro p hp
  have := hc p hp
  simpa using this

/-- Appending a fresh acceptable move while marking it preserves the
    move-list invariant. -/
theorem extend_inv (env : Env) (c : Color) (b t : SimState) (mv : MoveV)
    (hmv : t.moves c = b.moves c ++ [mv])
    (hmk : t.marker c = insert mv (b.marker c))
    (hbd : t.bd = b.bd)
    (hnd : (b.moves c).Nodup) (hsync : ∀ x, x ∈ b.marker c ↔ x ∈ b.moves c)
    (hval : ∀ x ∈ b.moves c, MoveOk env b.bd c x)
    (hnew : mv ∉ b.moves c) (hok : MoveOk env b.bd c mv) :
    MovesInv env t c := by
  refine ⟨?_, ?_, ?_⟩
  · rw [hmv]
    exact hnd.append (List.nodup_singleton mv)
      (fun a ha hb => hnew (by rwa [List.mem_singleton.mp hb] at ha))
  · intro x
    rw [hmk, hmv]
    rw [Finset.mem_insert, List.mem_append, List.mem_singleton, hsync x]
    tauto
  · intro x hx
    rw [hmv] at hx
    rw [hbd]
    rcases List.mem_append.mp hx with h | h
    · exact hval x h
    · rw [List.mem_singleton.mp h]
      exact hok

/-- try_add preserves the move-list invariant (and the board) when the
    enumerated piece is still left. -/
theorem try_add_inv (env : Env) (c : Color) (piece : Piece) (p : Point) (adj : ℕ)
    (s : SimState) (hinv : MovesInv env s c)
    (hpl : piece ∈ s.bd.pieces_left c) :
    MovesInv env (try_add env c piece p adj s) c ∧ (try_add env c piece p adj s).bd = s.bd := by
  unfold try_add
  refine foldl_invariant (fun b => MovesInv env b c ∧ b.bd = s.bd)
    (fun mv => mv ∈ env.get_moves c piece p adj) _ _ ?_ s (fun _ ha => ha) ⟨hinv, rfl⟩
  intro b mv hP hq
  obtain ⟨⟨hnd, hsync, hval⟩, hbd⟩ := hP
  by_cases hm : mv ∉ b.marker c
  · rw [if_pos hm]
    cases hc : check_move env b.bd (b.bd.is_forbidden c) (env.move_info mv) with
    | none => exact ⟨⟨hnd, hsync, hval⟩, hbd⟩
    | some g =>
      refine ⟨extend_inv env c b _ mv ?_ ?_ rfl hnd hsync hval ?_ ?_, hbd⟩
      · simp [add_move, Function.update_same]
      · simp [add_move, Function.update_same]
      · exact fun hmem => hm ((hsync mv).mpr hmem)
      · refine ⟨check_move_points env b.bd _ _ g hc, ?_⟩
        rw [env.get_moves_piece c piece p adj mv hq, hbd]
        exact hpl
  · rw [if_neg hm]
    exact ⟨⟨hnd, hsync, hval⟩, hbd⟩

/-- add_moves preserves the move-list invariant (and the board) when
    every considered piece is still left. -/
theorem add_moves_inv (env : Env) (p : Point) (c : Color) (pcs : List Piece)
    (s : SimState) (hinv : MovesInv env s c)
    (hsub : ∀ q ∈ pcs, q ∈ s.bd.pieces_left c) :
    MovesInv env (add_moves env p c pcs s) c ∧ (add_moves env p c pcs s).bd = s.bd := by
  unfold add_moves
  dsimp only
  have hfold : (fun b => MovesInv env b c ∧ b.bd = s.bd)
      (pcs.foldl (fun b piece => try_add env c piece p (s.bd.adj_status p c) b) s) := by
    refine foldl_invariant (fun b => MovesInv env b c ∧ b.bd = s.bd)
      (fun q => q ∈ s.bd.pieces_left c) _ _ ?_ s hsub ⟨hinv, rfl⟩
    intro b q hP hq
    obtain ⟨hbInv, hbd⟩ := hP
    have := try_add_inv env c q p (s.bd.adj_status p c) b hbInv (by rw [hbd]; exact hq)
    exact ⟨this.1, this.2.trans hbd⟩
  exact ⟨hfold.1, hfold.2⟩

/-- Enumerating one piece's moves at the starting point preserves the
    move-list invariant: the enumerated list is duplicate-free, all its
    moves belong to the piece, and no already-listed move reappears in
    it. -/
theorem add_starting_piece_inv (env : Env) (c : Color) (piece : Piece) (_p : Point)
    (wg : Bool) (B : Board) (hplB : piece ∈ B.pieces_left c) :
    ∀ L : List MoveV, L.Nodup →
    (∀ mv ∈ L, (env.move_info mv).piece = piece) →
    ∀ s : SimState, s.bd = B → MovesInv env s c →
    (∀ mv ∈ s.moves c, mv ∉ L) →
    (L.foldl (fun s mv =>
      if check_move_without_gamma env (s.bd.is_forbidden c) mv then
        let s := { s with marker := Function.update s.marker c (insert mv (s.marker c)) }
        if wg then add_move s c mv (env.gamma_piece piece)
        else { s with moves := Function.update s.moves c (s.moves c ++ [mv]) }
      else s) s).bd = B
    ∧ MovesInv env (L.foldl (fun s mv =>
        if check_move_without_gamma env (s.bd.is_forbidden c) mv then
          let s := { s with marker := Function.update s.marker c (insert mv (s.marker c)) }
          if wg then add_move s c mv (env.gamma_piece piece)
          else { s with moves := Function.update s.moves c (s.moves c ++ [mv]) }
        else s) s) c
    ∧ ∀ mv ∈ (L.foldl (fun s mv =>
        if check_move_without_gamma env (s.bd.is_forbidden c) mv then
          let s := { s with marker := Function.update s.marker c (insert mv (s.marker c)) }
          if wg then add_move s c mv (env.gamma_piece piece)
          else { s with moves := Function.update s.moves c (s.moves c ++ [mv]) }
        else s) s).moves c, mv ∈ s.moves c ∨ mv ∈ L := by
  intro L
  induction L with
  | nil =>
    intro _ _ s hbd hinv _
    exact ⟨hbd, hinv, fun mv h => Or.inl h⟩
  | cons mv rest ih =>
    intro hndL hLp s hbd hinv hdis
    obtain ⟨hnd, hsync, hval⟩ := hinv
    rw [List.foldl_cons]
    have hmvrest : mv ∉ rest := (List.nodup_cons.mp hndL).1
    have hndrest : rest.Nodup := (List.nodup_cons.mp hndL).2
    have hnew : mv ∉ s.moves c := fun h => hdis mv h (List.mem_cons_self mv rest)
    by_cases hcm : check_move_without_gamma env (s.bd.is_forbidden c) mv
    · rw [if_pos hcm]
      dsimp only
      have hok : MoveOk env s.bd c mv :=
        ⟨check_move_without_gamma_points env _ mv hcm, by
          rw [hLp mv (List.mem_cons_self mv rest), hbd]
          exact hplB⟩
      have hinv' : ∀ t : SimState, t.moves c = s.moves c ++ [mv] →
          t.marker c = insert mv (s.marker c) → t.bd = s.bd →
          (t.bd = B ∧ MovesInv env t c ∧ ∀ x ∈ t.moves c, x ∉ rest) := by
        intro t hm1 hm2 hm3
        refine ⟨hm3.trans hbd, extend_inv env c s t mv hm1 hm2 hm3 hnd hsync hval hnew hok, ?_⟩
        intro x hx
        rw [hm1] at hx
        rcases List.mem_append.mp hx with h | h
        · exact fun hr => hdis x h (List.mem_cons_of_mem mv hr)
        · rw [List.mem_singleton.mp h]
          exact hmvrest
      have hcont : ∀ t : SimState, t.moves c = s.moves c ++ [mv] →
          t.marker c = insert mv (s.marker c) → t.bd = s.bd →
          (List.foldl (fun s mv =>
            if check_move_without_gamma env (s.bd.is_forbidden c) mv then
              let s := { s with marker := Function.update s.marker c (insert mv (s.marker c)) }
              if wg then add_move s c mv (env.gamma_piece piece)
              else { s with moves := Function.update s.moves c (s.moves c ++ [mv]) }
            else s) t rest).bd = B
          ∧ MovesInv env (List.foldl (fun s mv =>
              if check_move_without_gamma env (s.bd.is_forbidden c) mv then
                let s := { s with marker := Function.update s.marker c (insert mv (s.marker c)) }
                if wg then add_move s c mv (env.gamma_piece piece)
                else { s with moves := Function.update s.moves c (s.moves c ++ [mv]) }
              else s) t rest) c
          ∧ ∀ x ∈ (List.foldl (fun s mv =>
              if check_move_without_gamma env (s.bd.is_forbidden c) mv then
                let s := { s with marker := Function.update s.marker c (insert mv (s.marker c)) }
                if wg then add_move s c mv (env.gamma_piece piece)
                else { s with moves := Function.update s.moves c (s.moves c ++ [mv]) }
              else s) t rest).moves c, x ∈ s.moves c ∨ x ∈ mv :: rest := by
        intro t hm1 hm2 hm3
        have ht := hinv' t hm1 hm2 hm3
        have hres := ih hndrest (fun x hx => hLp x (List.mem_cons_of_mem mv hx))
          t ht.1 ht.2.1 ht.2.2
        refine ⟨hres.1, hres.2.1, ?_⟩
        intro x hx
        rcases hres.2.2 x hx with h | h
        · rw [hm1] at h
          rcases List.mem_append.mp h with h' | h'
          · exact Or.inl h'
          · exact Or.inr (by rw [List.mem_singleton.mp h']; exact List.mem_cons_self mv rest)
        · exact Or.inr (List.mem_cons_of_mem mv h)
      cases wg with
      | true =>
        rw [if_pos rfl]
        refine hcont _ ?_ ?_ rfl
        · simp [add_move, Function.update_same]
        · simp [add_move, Function.update_same]
      | false =>
        rw [if_neg (by simp)]
        refine hcont _ ?_ ?_ rfl
        · simp [Function.update_same]
        · simp [Function.update_same]
    · rw [if_neg hcm]
      have hres := ih hndrest (fun x hx => hLp x (List.mem_cons_of_mem mv hx))
        s hbd ⟨hnd, hsync, hval⟩
        (fun x hx hr => hdis x hx (List.mem_cons_of_mem mv hr))
      refine ⟨hres.1, hres.2.1, ?_⟩
      intro x hx
      rcases hres.2.2 x hx with h | h
      · exact Or.inl h
      · exact Or.inr (List.mem_cons_of_mem mv h)

/-- Enumerating the considered pieces at the starting point establishes
    the move-list invariant, given duplicate-free pieces that are all
    still left and a list whose moves' pieces are not among them. -/
theorem add_starting_fold_inv (env : Env) (c : Color) (p : Point) (wg : Bool) (B : Board) :
    ∀ pcs : List Piece, pcs.Nodup → (∀ q ∈ pcs, q ∈ B.pieces_left c) →
    ∀ s : SimState, s.bd = B → MovesInv env s c →
    (∀ mv ∈ s.moves c, (env.move_info mv).piece ∉ pcs) →
    (pcs.foldl (fun s piece =>
      (env.get_moves c piece p 0).foldl (fun s mv =>
        if check_move_without_gamma env (s.bd.is_forbidden c) mv then
          let s := { s with marker := Function.update s.marker c (insert mv (s.marker c)) }
          if wg then add_move s c mv (env.gamma_piece piece)
          else { s with moves := Function.update s.moves c (s.moves c ++ [mv]) }
        else s) s) s).bd = B
    ∧ MovesInv env (pcs.foldl (fun s piece =>
        (env.get_moves c piece p 0).foldl (fun s mv =>
          if check_move_without_gamma env (s.bd.is_forbidden c) mv then
            let s := { s with marker := Function.update s.marker c (insert mv (s.marker c)) }
            if wg then add_move s c mv (env.gamma_piece piece)
            else { s with moves := Function.update s.moves c (s.moves c ++ [mv]) }
          else s) s) s) c := by
  intro pcs
  induction pcs with
  | nil =>
    intro _ _ s hbd hinv _
    exact ⟨hbd, hinv⟩
  | cons q rest ih =>
    intro hndP hsub s hbd hinv hproc
    rw [List.foldl_cons]
    have hqrest : q ∉ rest := (List.nodup_cons.mp hndP).1
    have hinner := add_starting_piece_inv env c q p wg B
      (hsub q (List.mem_cons_self q rest))
      (env.get_moves c q p 0) (env.get_moves_nodup c q p 0)
      (fun mv hmv => env.get_moves_piece c q p 0 mv hmv)
      s hbd hinv
      (fun mv hmv hL => hproc mv hmv (by
        rw [env.get_moves_piece c q p 0 mv hL]
        exact List.mem_cons_self q rest))
    refine ih (List.nodup_cons.mp hndP).2
      (fun x hx => hsub x (List.mem_cons_of_mem q hx)) _ hinner.1 hinner.2.1 ?_
    intro mv hmv
    rcases hinner.2.2 mv hmv with h | h
    · exact fun hr => hproc mv h (List.mem_cons_of_mem q hr)
    · rw [env.get_moves_piece c q p 0 mv h]
      exact hqrest

/-- add_starting_moves establishes the move-list invariant from a
    cleared list and marker. -/
theorem add_starting_moves_inv (env : Env) (c : Color) (pcs : List Piece) (wg : Bool)
    (s : SimState) (hm : s.moves c = []) (hk : s.marker c = ∅)
    (hnd : pcs.Nodup) (hsub : ∀ q ∈ pcs, q ∈ s.bd.pieces_left c) :
    MovesInv env (add_starting_moves env c pcs wg s) c
    ∧ (add_starting_moves env c pcs wg s).bd = s.bd := by
  have hbase : MovesInv env s c := by
    refine ⟨by rw [hm]; exact List.nodup_nil, ?_, ?_⟩
    · intro x
      rw [hm, hk]
      simp
    · intro x hx
      rw [hm] at hx
      exact absurd hx (List.not_mem_nil x)
  unfold add_starting_moves
  cases find_best_starting_point s c with
  | none => exact ⟨hbase, rfl⟩
  | some p =>
    have h := add_starting_fold_inv env c p wg s.bd pcs hnd hsub s rfl hbase
      (fun mv hmv => absurd (hm ▸ hmv) (List.not_mem_nil mv))
    exact ⟨h.2, h.1⟩

/-- init_moves_once establishes the move-list invariant, given a marker
    synchronized with the list and duplicate-free pieces left. -/
theorem init_moves_once_inv (env : Env) (c : Color) (s : SimState)
    (hsync : ∀ mv, mv ∈ s.marker c ↔ mv ∈ s.moves c)
    (hnd : (s.bd.pieces_left c).Nodup) :
    MovesInv env (init_moves_once env c s) c ∧ (init_moves_once env c s).bd = s.bd := by
  have hkey : (init_clear env c s).marker c = ∅ := by
    show Function.update s.marker c ((s.marker c) \ (s.moves c).toFinset) c = ∅
    rw [Function.update_same]
    refine Finset.eq_empty_of_forall_not_mem ?_
    intro x hx
    rw [Finset.mem_sdiff, List.mem_toFinset] at hx
    exact hx.2 ((hsync x).mp hx.1)
  have hmv : (init_clear env c s).moves c = [] := by simp [init_clear]
  unfold init_moves_once
  dsimp only
  split
  · have h := add_starting_moves_inv env c
      (((init_clear env c s).bd.pieces_left c).filter
        (fun piece => env.considered (get_pieces_considered env s) piece))
      true (init_clear env c s) hmv hkey
      (List.Nodup.filter _ hnd) (fun q hq => List.mem_of_mem_filter hq)
    exact ⟨h.1, h.2⟩
  · have hbase : MovesInv env (init_clear env c s) c := by
      refine ⟨by rw [hmv]; exact List.nodup_nil, ?_, ?_⟩
      · intro x
        rw [hmv, hkey]
        simp
      · intro x hx
        rw [hmv] at hx
        exact absurd hx (List.not_mem_nil x)
    have hfold : ∀ (pts : List Point) (pcs : List Piece) (b : SimState),
        MovesInv env b c → b.bd = s.bd → (∀ q ∈ pcs, q ∈ s.bd.pieces_left c) →
        MovesInv env (pts.foldl (fun b p =>
          if b.bd.is_forbidden c p = false then add_moves env p c pcs b else b) b) c
        ∧ (pts.foldl (fun b p =>
          if b.bd.is_forbidden c p = false then add_moves env p c pcs b else b) b).bd
            = s.bd := by
      intro pts pcs b hb hbd hsub
      refine foldl_invariant (fun b => MovesInv env b c ∧ b.bd = s.bd) (fun _ => True)
        _ _ ?_ b (fun _ _ => trivial) ⟨hb, hbd⟩
      intro b' pt hP _
      by_cases hp : b'.bd.is_forbidden c pt = false
      · rw [if_pos hp]
        have := add_moves_inv env pt c pcs b' hP.1 (fun q hq => by
          rw [hP.2]
          exact hsub q hq)
        exact ⟨this.1, this.2.trans hP.2⟩
      · rw [if_neg hp]
        exact hP
    have h := hfold ((init_clear env c s).bd.attach_points c)
      (((init_clear env c s).bd.pieces_left c).filter
        (fun piece => env.considered (get_pieces_considered env s) piece))
      (init_clear env c s) hbase rfl (fun q hq => List.mem_of_mem_filter hq)
    exact ⟨h.1, h.2⟩

/-- init_moves_with_gamma establishes the move-list invariant, given a
    synchronized marker and duplicate-free pieces left. -/
theorem init_moves_inv (env : Env) (c : Color) (s : SimState)
    (hsync : ∀ mv, mv ∈ s.marker c ↔ mv ∈ s.moves c)
    (hnd : (s.bd.pieces_left c).Nodup) :
    MovesInv env (init_moves_with_gamma env c s) c
    ∧ (init_moves_with_gamma env c s).bd = s.bd := by
  unfold init_moves_with_gamma
  dsimp only
  have h1 := init_moves_once_inv env c s hsync hnd
  split
  · have h2 := init_moves_once_inv env c
      { init_moves_once env c s with force_consider_all_pieces := true }
      (fun mv => h1.1.2.1 mv) (by rw [show ({ init_moves_once env c s with
        force_consider_all_pieces := true } : SimState).bd = s.bd from h1.2]; exact hnd)
    exact ⟨h2.1, h2.2.trans h1.2⟩
  · exact h1

/-- The re-filtering pass of update_moves: starting from a cleared list
    whose marker still holds exactly the old moves, it rebuilds a
    duplicate-free, synchronized, acceptable list. -/
theorem update_retain_inv (env : Env) (c : Color) (B : Board) :
    ∀ old : List MoveV, old.Nodup →
    ∀ s : SimState, s.bd = B →
    (s.moves c).Nodup →
    (∀ x ∈ s.moves c, x ∉ old) →
    (∀ x, x ∈ s.marker c ↔ (x ∈ s.moves c ∨ x ∈ old)) →
    (∀ x ∈ s.moves c, MoveOk env B c x) →
    (update_retain env c old s).bd = B ∧ MovesInv env (update_retain env c old s) c := by
  intro old
  induction old with
  | nil =>
    intro _ s hbd hnd hdis hsync hval
    refine ⟨hbd, hnd, ?_, ?_⟩
    · intro x
      show x ∈ s.marker c ↔ x ∈ s.moves c
      rw [hsync x]
      simp
    · intro x hx
      show MoveOk env s.bd c x
      rw [hbd]
      exact hval x hx
  | cons mv rest ih =>
    intro hndL s hbd hnd hdis hsync hval
    have hmvrest : mv ∉ rest := (List.nodup_cons.mp hndL).1
    have hndrest : rest.Nodup := (List.nodup_cons.mp hndL).2
    have hnewm : mv ∉ s.moves c := fun h => hdis mv h (List.mem_cons_self mv rest)
    have hstep_drop : ∀ t : SimState,
        t = { s with marker := Function.update s.marker c ((s.marker c).erase mv) } →
        (update_retain env c rest t).bd = B ∧ MovesInv env (update_retain env c rest t) c := by
      intro t ht
      refine ih hndrest t (by rw [ht]; exact hbd) (by rw [ht]; exact hnd) ?_ ?_ ?_
      · intro x hx
        rw [ht] at hx
        exact fun hr => hdis x hx (List.mem_cons_of_mem mv hr)
      · intro x
        rw [ht]
        show x ∈ Function.update s.marker c ((s.marker c).erase mv) c ↔ _
        rw [Function.update_same, Finset.mem_erase, hsync x]
        constructor
        · rintro ⟨hne, hmem | hmem⟩
          · exact Or.inl hmem
          · rcases List.mem_cons.mp hmem with h | h
            · exact absurd h hne
            · exact Or.inr h
        · rintro (hmem | hmem)
          · exact ⟨fun he => hdis x hmem (he ▸ List.mem_cons_self mv rest), Or.inl hmem⟩
          · exact ⟨fun he => hmvrest (he ▸ hmem), Or.inr (List.mem_cons_of_mem mv hmem)⟩
      · intro x hx
        rw [ht] at hx
        exact hval x hx
    have hfold : update_retain env c (mv :: rest) s
        = update_retain env c rest ((fun s mv =>
            let info := env.move_info mv
            if info.piece ∈ s.bd.pieces_left c then
              match check_move env s.bd (s.bd.is_forbidden c) info with
              | some gamma => add_move s c mv gamma
              | none => { s with marker := Function.update s.marker c ((s.marker c).erase mv) }
            else { s with marker := Function.update s.marker c ((s.marker c).erase mv) }) s mv) := by
      unfold update_retain
      rw [List.foldl_cons]
    rw [hfold]
    dsimp only
    by_cases hq : (env.move_info mv).piece ∈ s.bd.pieces_left c
    · rw [if_pos hq]
      cases hcm : check_move env s.bd (s.bd.is_forbidden c) (env.move_info mv) with
      | some g =>
        refine ih hndrest (add_move s c mv g) hbd ?_ ?_ ?_ ?_
        · show (Function.update s.moves c (s.moves c ++ [mv]) c).Nodup
          rw [Function.update_same]
          exact hnd.append (List.nodup_singleton mv)
            (fun a ha hb => hnewm (by rwa [List.mem_singleton.mp hb] at ha))
        · intro x hx
          rw [show (add_move s c mv g).moves c = s.moves c ++ [mv] by
            simp [add_move, Function.update_same]] at hx
          rcases List.mem_append.mp hx with h | h
          · exact fun hr => hdis x h (List.mem_cons_of_mem mv hr)
          · rw [List.mem_singleton.mp h]
            exact hmvrest
        · intro x
          rw [show (add_move s c mv g).marker c = s.marker c from rfl,
            show (add_move s c mv g).moves c = s.moves c ++ [mv] by
              simp [add_move, Function.update_same],
            hsync x, List.mem_append, List.mem_singleton, List.mem_cons]
          tauto
        · intro x hx
          rw [show (add_move s c mv g).moves c = s.moves c ++ [mv] by
            simp [add_move, Function.update_same]] at hx
          rcases List.mem_append.mp hx with h | h
          · exact hval x h
          · rw [List.mem_singleton.mp h]
            refine ⟨?_, ?_⟩
            · have := check_move_points env s.bd (s.bd.is_forbidden c) (env.move_info mv) g hcm
              rw [← hbd]
              exact this
            · rw [← hbd]
              exact hq
      | none => exact hstep_drop _ rfl
    · rw [if_neg hq]
      exact hstep_drop _ rfl

/-- update_new preserves the move-list invariant when the considered
    pieces are all still left. -/
theorem update_new_inv (env : Env) (c : Color) (pcs : List Piece) (nm : List MoveV)
    (s : SimState) (hinv : MovesInv env s c)
    (hsub : ∀ q ∈ pcs, q ∈ s.bd.pieces_left c) :
    MovesInv env (update_new env c pcs nm s) c ∧ (update_new env c pcs nm s).bd = s.bd := by
  unfold update_new
  have h := foldl_invariant (fun b => MovesInv env b c ∧ b.bd = s.bd) (fun _ => True)
    (fun b mv => (env.move_info_ext mv).foldl (fun b p =>
      if b.bd.is_forbidden c p = false ∧ p ∉ b.moves_added_at c then
        add_moves env p c pcs b
      else b) b) nm ?_ s (fun _ _ => trivial) ⟨hinv, rfl⟩
  · exact h
  · intro b mv hP _
    refine foldl_invariant (fun b => MovesInv env b c ∧ b.bd = s.bd) (fun _ => True)
      _ _ ?_ b (fun _ _ => trivial) hP
    intro b' pt hP' _
    by_cases hc : b'.bd.is_forbidden c pt = false ∧ pt ∉ b'.moves_added_at c
    · rw [if_pos hc]
      have := add_moves_inv env pt c pcs b' hP'.1 (fun q hq => by
        rw [hP'.2]
        exact hsub q hq)
      exact ⟨this.1, this.2.trans hP'.2⟩
    · rw [if_neg hc]
      exact hP'

/-- update_widen preserves the move-list invariant when the widened
    pieces are all still left. -/
theorem update_widen_inv (env : Env) (c : Color) (pieces2 : List Piece)
    (s : SimState) (hinv : MovesInv env s c)
    (hsub : ∀ q ∈ pieces2, q ∈ s.bd.pieces_left c) :
    MovesInv env (update_widen env c pieces2 s) c ∧ (update_widen env c pieces2 s).bd = s.bd := by
  unfold update_widen
  refine foldl_invariant (fun b => MovesInv env b c ∧ b.bd = s.bd) (fun _ => True)
    _ _ ?_ s (fun _ _ => trivial) ⟨hinv, rfl⟩
  intro b pt hP _
  by_cases hc : b.bd.is_forbidden c pt = false
  · rw [if_pos hc]
    refine foldl_invariant (fun b => MovesInv env b c ∧ b.bd = s.bd) (fun q => q ∈ pieces2)
      _ _ ?_ b (fun _ hq => hq) hP
    intro b' q hP' hq
    have := try_add_inv env c q pt (b'.bd.adj_status pt c) b' hP'.1 (by
      rw [hP'.2]
      exact hsub q hq)
    exact ⟨this.1, this.2.trans hP'.2⟩
  · rw [if_neg hc]
    exact hP

/-- update_widen_all preserves the move-list invariant. -/
theorem update_widen_all_inv (env : Env) (c : Color) (ptr ptrNew : ConsideredPtr)
    (s : SimState) (hinv : MovesInv env s c) :
    MovesInv env (update_widen_all env c ptr ptrNew s) c
    ∧ (update_widen_all env c ptr ptrNew s).bd = s.bd := by
  unfold update_widen_all
  exact update_widen_inv env c _ s hinv (fun q hq => List.mem_of_mem_filter hq)

/-- update_consider preserves the move-list invariant. -/
theorem update_consider_inv (env : Env) (c : Color) (s : SimState)
    (hinv : MovesInv env s c) :
    MovesInv env (update_consider env c s) c ∧ (update_consider env c s).bd = s.bd := by
  unfold update_consider
  dsimp only
  split
  · by_cases hE : ((s.moves c).isEmpty : Bool) = true
    · rw [if_pos hE]
      split
      · have h := update_widen_all_inv env c (s.is_piece_considered c)
          (get_pieces_considered env { s with force_consider_all_pieces := true })
          { s with force_consider_all_pieces := true } hinv
        exact ⟨h.1, h.2⟩
      · exact ⟨hinv, rfl⟩
    · rw [if_neg hE]
      split
      · have h := update_widen_all_inv env c (s.is_piece_considered c)
          (get_pieces_considered env s) s hinv
        exact ⟨h.1, h.2⟩
      · exact ⟨hinv, rfl⟩
  · exact ⟨hinv, rfl⟩

/-- update_moves establishes the move-list invariant from a
    duplicate-free list and a synchronized marker. -/
theorem update_moves_inv (env : Env) (c : Color) (s : SimState)
    (hnd : (s.moves c).Nodup)
    (hsync : ∀ mv, mv ∈ s.marker c ↔ mv ∈ s.moves c) :
    MovesInv env (update_moves env c s) c ∧ (update_moves env c s).bd = s.bd := by
  unfold update_moves
  dsimp only
  set r1 := update_retain env c (s.moves c)
    { s with total_gamma := 0, cumulative := [], moves := Function.update s.moves c [] }
    with hr1
  have h1 : r1.bd = s.bd ∧ MovesInv env r1 c := by
    rw [hr1]
    refine update_retain_inv env c s.bd (s.moves c) hnd _ rfl (by simp) (by simp) ?_ (by simp)
    intro x
    show x ∈ s.marker c ↔ _
    rw [hsync x]
    simp
  set r2 := update_new env c
    ((r1.bd.pieces_left c).filter (fun piece => env.considered (r1.is_piece_considered c) piece))
    (r1.new_moves c) r1 with hr2
  have h2 : MovesInv env r2 c ∧ r2.bd = s.bd := by
    rw [hr2]
    have h := update_new_inv env c
      ((r1.bd.pieces_left c).filter (fun piece => env.considered (r1.is_piece_considered c) piece))
      (r1.new_moves c) r1 h1.2 (fun q hq => List.mem_of_mem_filter hq)
    exact ⟨h.1, h.2.trans h1.1⟩
  have h3 := update_consider_inv env c
    { r2 with new_moves := Function.update r2.new_moves c [] } (by exact h2.1)
  refine ⟨h3.1, h3.2.trans ?_⟩
  exact h2.2

/-- C6: add_moves preserves, and init_moves_with_gamma and update_moves
    (re-)establish, the per-color move-list invariant: the list has no
    duplicates, the marker holds exactly its set, and every listed move
    is non-forbidden on the current board with its piece still left. -/
theorem moves_marker_invariant (env : Env) :
    (∀ (p : Point) (c : Color) (pcs : List Piece) (s : SimState),
      MovesInv env s c → (∀ q ∈ pcs, q ∈ s.bd.pieces_left c) →
      MovesInv env (add_moves env p c pcs s) c)
    ∧ (∀ (c : Color) (s : SimState),
      (∀ mv, mv ∈ s.marker c ↔ mv ∈ s.moves c) → (s.bd.pieces_left c).Nodup →
      MovesInv env (init_moves_with_gamma env c s) c)
    ∧ ∀ (c : Color) (s : SimState),
      (s.moves c).Nodup → (∀ mv, mv ∈ s.marker c ↔ mv ∈ s.moves c) →
      MovesInv env (update_moves env c s) c :=
  ⟨fun p c pcs s hinv hsub => (add_moves_inv env p c pcs s hinv hsub).1,
    fun c s hsync hnd => (init_moves_inv env c s hsync hnd).1,
    fun c s hnd hsync => (update_moves_inv env c s hnd hsync).1⟩

/-- Witness for moves_marker_invariant at the concrete environment envM
    and state sM. -/
theorem moves_marker_invariant_witness :
    (MovesInv envM sM 0 ∧ ∀ q ∈ ([0] : List Piece), q ∈ sM.bd.pieces_left 0)
    ∧ (∀ mv, mv ∈ sM.marker 0 ↔ mv ∈ sM.moves 0)
    ∧ (sM.bd.pieces_left 0).Nodup
    ∧ (sM.moves 0).Nodup
    ∧ MovesInv envM (add_moves envM 4 0 [0] sM) 0
    ∧ MovesInv envM (init_moves_with_gamma envM 0 sM) 0
    ∧ MovesInv envM (update_moves envM 0 sM) 0 := by
  have hinv : MovesInv envM sM 0 := by
    refine ⟨List.nodup_nil, ?_, ?_⟩
    · intro x
      show x ∈ (∅ : Finset MoveV) ↔ x ∈ ([] : List MoveV)
      simp
    · intro x hx
      exact absurd hx (List.not_mem_nil x)
  have hsync : ∀ mv, mv ∈ sM.marker 0 ↔ mv ∈ sM.moves 0 := hinv.2.1
  have hnd : (sM.bd.pieces_left 0).Nodup := by decide
  refine ⟨⟨hinv, by decide⟩, hsync, hnd, List.nodup_nil, ?_, ?_, ?_⟩
  · exact (moves_marker_invariant envM).1 4 0 [0] sM hinv (by decide)
  · exact (moves_marker_invariant envM).2.1 0 sM hsync hnd
  · exact (moves_marker_invariant envM).2.2 0 sM List.nodup_nil hsync

/-- C10: each of the Player budget setters zeroes the other fixed
    budget, so after any non-empty sequence of setter calls at most one
    of the fixed simulation count and the fixed time is non-zero, and
    any setter sequence preserves that exclusivity. -/
theorem player_budget_setters_exclusive :
    (∀ (s : PlayerState) (ops : List PlayerOp), ops ≠ [] →
      (player_apply_seq s ops).fixed_simulations = 0
      ∨ (player_apply_seq s ops).fixed_time = 0)
    ∧ ∀ (s : PlayerState) (ops : List PlayerOp),
      (s.fixed_simulations = 0 ∨ s.fixed_time = 0) →
      (player_apply_seq s ops).fixed_simulations = 0
      ∨ (player_apply_seq s ops).fixed_time = 0 := by
  have hstep : ∀ (s : PlayerState) (op : PlayerOp),
      (player_apply s op).fixed_simulations = 0 ∨ (player_apply s op).fixed_time = 0 := by
    intro s op
    cases op with
    | setFixedSimulations n => exact Or.inr rfl
    | setFixedTime t => exact Or.inl rfl
    | setLevel l => exact Or.inl rfl
  have hseq : ∀ (ops : List PlayerOp) (s : PlayerState),
      (s.fixed_simulations = 0 ∨ s.fixed_time = 0) →
      (player_apply_seq s ops).fixed_simulations = 0
      ∨ (player_apply_seq s ops).fixed_time = 0 := by
    intro ops
    induction ops with
    | nil => intro s h; exact h
    | cons op rest ih =>
      intro s _
      exact ih (player_apply s op) (hstep s op)
  constructor
  · intro s ops hne
    match ops with
    | op :: rest => exact hseq rest (player_apply s op) (hstep s op)
  · intro s ops h
    exact hseq ops s h

/-- Witness for player_budget_setters_exclusive at a concrete non-empty
    call sequence from a state with both budgets non-zero. -/
theorem player_budget_setters_exclusive_witness :
    ([PlayerOp.setFixedSimulations 7] ≠ ([] : List PlayerOp))
    ∧ ((player_apply_seq ⟨3, 1, 1⟩ [PlayerOp.setFixedSimulations 7]).fixed_simulations = 0
        ∨ (player_apply_seq ⟨3, 1, 1⟩ [PlayerOp.setFixedSimulations 7]).fixed_time = 0) :=
  ⟨by simp, player_budget_setters_exclusive.1 ⟨3, 1, 1⟩ [PlayerOp.setFixedSimulations 7] (by simp)⟩

/-- In a 2-player, non-symmetry-terminated playout, evaluate_playout
    gives player 0 the sign-based game result with the score-deviation
    and length bonuses, mirrors player 0's bonused entry into player 1,
    and never touches player 1's score statistic. -/
theorem eval_two_player_spec (s : SimState)
    (h2 : s.bd.nu_players = 2)
    (hterm : ¬(s.is_symmetry_broken = false
        ∧ s.symmetry_min_nu_pieces ≤ s.bd.nu_onboard_pieces)) :
    (evaluate_playout s).2 0 = eval_player0 s
    ∧ (evaluate_playout s).2 1 = 1 - eval_player0 s
    ∧ (evaluate_playout s).1.stat_score 0 = (s.stat_score 0).add ((s.bd.score 0 : ℝ))
    ∧ (evaluate_playout s).1.stat_score 1 = s.stat_score 1
    ∧ (evaluate_playout s).1.stat_len = s.stat_len.add ((s.bd.nu_moves : ℝ)) := by
  unfold evaluate_playout
  rw [if_neg hterm]
  dsimp only
  rw [h2, show List.range 2 = [0, 1] from rfl]
  simp only [eval_loop]
  have e03 : ((0 : Fin 4) = 3) ↔ False := by decide
  have e02 : ((0 : Fin 4) = 2) ↔ False := by decide
  have e13 : ((1 : Fin 4) = 3) ↔ False := by decide
  have e12 : ((1 : Fin 4) = 2) ↔ False := by decide
  have e01 : ((0 : Fin 4) = 1) ↔ False := by decide
  have e10 : ((1 : Fin 4) = 0) ↔ False := by decide
  by_cases hnc : 2 < s.nu_colors
  · rw [if_pos hnc]
    norm_num [Function.update_apply, game_result_sign, score_bonus, len_bonus, eval_player0,
      e03, e02, e13, e12, e01, e10]
  · rw [if_neg hnc]
    norm_num [Function.update_apply, game_result_sign, score_bonus, len_bonus, eval_player0,
      e03, e02, e13, e12, e01, e10]

/-- The sigmoid is strictly positive at (2, 1). -/
theorem sigmoid_two_one_pos : 0 < sigmoid 2 1 := by
  unfold sigmoid
  have h1 : Real.exp (-(2 : ℝ) * 1) < 1 := by
    rw [Real.exp_lt_one_iff]
    norm_num
  have h2 : (0 : ℝ) < Real.exp (-(2 : ℝ) * 1) := Real.exp_pos _
  have h4 : (0 : ℝ) < 1 + Real.exp (-(2 : ℝ) * 1) := by linarith
  have h5 : (1 : ℝ) < 2 / (1 + Real.exp (-(2 : ℝ) * 1)) := by
    rw [lt_div_iff₀ h4]
    linarith
  linarith

/-- C2 (amended): in a 2-player variant, for every playout not
    terminated by the symmetry heuristic, player 0's entry is the
    sign-based base result (1 if its score is positive, 0 if negative,
    0.5 if zero) plus the score-deviation bonus (0.2 * sigmoid(2,
    (s - mean)/dev) when the deviation after the Welford update is
    positive) plus the length bonus, and player 1's entry is 1 minus
    player 0's entry; player 1 receives no score-deviation bonus of its
    own — its score statistic is not even updated. The claim as frozen
    asserts the bonus for each player's own statistic. -/
theorem evaluate_playout_two_player (s : SimState)
    (h2 : s.bd.nu_players = 2)
    (hterm : ¬(s.is_symmetry_broken = false
        ∧ s.symmetry_min_nu_pieces ≤ s.bd.nu_onboard_pieces)) :
    (evaluate_playout s).2 0 = eval_player0 s
    ∧ (evaluate_playout s).2 1 = 1 - eval_player0 s
    ∧ (evaluate_playout s).1.stat_score 0 = (s.stat_score 0).add ((s.bd.score 0 : ℝ))
    ∧ (evaluate_playout s).1.stat_score 1 = s.stat_score 1
    ∧ (evaluate_playout s).1.stat_len = s.stat_len.add ((s.bd.nu_moves : ℝ)) :=
  eval_two_player_spec s h2 hterm

/-- Witness for evaluate_playout_two_player at the concrete state sC2. -/
theorem evaluate_playout_two_player_witness :
    sC2.bd.nu_players = 2
    ∧ ¬(sC2.is_symmetry_broken = false
        ∧ sC2.symmetry_min_nu_pieces ≤ sC2.bd.nu_onboard_pieces)
    ∧ ((evaluate_playout sC2).2 0 = eval_player0 sC2
      ∧ (evaluate_playout sC2).2 1 = 1 - eval_player0 sC2
      ∧ (evaluate_playout sC2).1.stat_score 0 = (sC2.stat_score 0).add ((sC2.bd.score 0 : ℝ))
      ∧ (evaluate_playout sC2).1.stat_score 1 = sC2.stat_score 1
      ∧ (evaluate_playout sC2).1.stat_len = sC2.stat_len.add ((sC2.bd.nu_moves : ℝ))) :=
  ⟨rfl, by simp [sC2, s0], evaluate_playout_two_player sC2 rfl (by simp [sC2, s0])⟩

/-- Counterexample to C2 as frozen: at the concrete state sC2, player
    1's running score deviation (after the Welford update with player 1's
    score) is positive, yet player 1's returned entry is exactly 1 minus
    player 0's entry and does not include the score-deviation bonus
    0.2 * sigmoid(2, (s - mean)/dev) the claim requires. -/
theorem evaluate_playout_two_player_counterexample :
    (evaluate_playout sC2).2 1 = 1 - (evaluate_playout sC2).2 0
    ∧ 0 < ((sC2.stat_score 1).add ((sC2.bd.score 1 : ℝ))).deviation
    ∧ (evaluate_playout sC2).2 1
        ≠ (1 - (evaluate_playout sC2).2 0)
          + 0.2 * sigmoid 2 (((sC2.bd.score 1 : ℝ)
              - ((sC2.stat_score 1).add ((sC2.bd.score 1 : ℝ))).mean)
            / ((sC2.stat_score 1).add ((sC2.bd.score 1 : ℝ))).deviation) := by
  have h := eval_two_player_spec sC2 rfl (by simp [sC2, s0])
  have hsc : (sC2.bd.score 1 : ℝ) = 2 := by
    norm_num [sC2, s0, bd0]
  have hst : sC2.stat_score 1 = { count := 1, mean := 0, m2 := 0 } := by
    simp [sC2, s0]
  have hstat : (sC2.stat_score 1).add ((sC2.bd.score 1 : ℝ))
      = { count := 2, mean := 1, m2 := 2 } := by
    rw [hsc, hst]
    unfold Stat.add
    norm_num
  have hdev : (({ count := 2, mean := 1, m2 := 2 } : Stat)).deviation = 1 := by
    unfold Stat.deviation
    norm_num
  refine ⟨?_, ?_, ?_⟩
  · rw [h.2.1, h.1]
  · rw [hstat, hdev]
    norm_num
  · rw [h.2.1, h.1, hstat, hdev, hsc]
    have harg : ((2 : ℝ) - ({ count := 2, mean := 1, m2 := 2 } : Stat).mean) / 1 = 1 := by
      norm_num
    rw [harg]
    intro heq
    have hz : 0.2 * sigmoid 2 1 = 0 := by linarith
    have hpos := sigmoid_two_one_pos
    linarith

end PentobiMcts
